import Mathlib

/-!
# sync.Mutex and the epoll network poller

A shallow embedding of `src/sync/mutex.go` and `src/runtime/netpoll_epoll.go`.

* An `int32` is represented by its two's-complement bit pattern, a natural number
  below `2 ^ 32`; additions and subtractions wrap modulo `2 ^ 32`, and the
  arithmetic right shift is taken on the signed value of the pattern.
* `Lock` and `Unlock` are embedded as a small-step machine: one step is one access
  to the shared `Mutex` (an atomic operation, a plain read of `m.state`, or a call
  of the runtime semaphore) together with the goroutine-local code up to the next
  such access.  A single goroutine run alone gives the sequential behaviour, and
  the interleaving of the steps of several goroutines gives the concurrent one.
* `netpoll` is embedded as a function of the poller state and of the results the
  kernel gives to the successive `epollwait` calls.
-/

namespace GoSync

/-! ## int32 arithmetic on bit patterns -/

/-- The signed value of an `int32` bit pattern. -/
def toInt32 (a : Nat) : Int :=
  if a < 2147483648 then (a : Int) else (a : Int) - 4294967296

/-- Wrapping `int32` addition `a + b`. -/
def add32 (a b : Nat) : Nat := (a + b) % 4294967296

/-- Wrapping `int32` subtraction `a - b`. -/
def sub32 (a b : Nat) : Nat := (a + (4294967296 - b % 4294967296)) % 4294967296

/-- Go's bit clear `a &^ b` on 32-bit patterns: `a & (^b)`. -/
def andNot32 (a b : Nat) : Nat := a &&& (b ^^^ 4294967295)

/-- Go's `a >> k` on an `int32`: the arithmetic shift, as a signed value. -/
def sar32 (a k : Nat) : Int := toInt32 a / (2 : Int) ^ k

/-! ## Constants of `mutex.go` -/

/-- Constant `mutexLocked = 1 << iota` with `iota = 0`: the mutex is locked. -/
def mutexLocked : Nat := 1 <<< 0

/-- Constant `mutexWoken = 1 << iota` with `iota = 1`. -/
def mutexWoken : Nat := 1 <<< 1

/-- Constant `mutexStarving = 1 << iota` with `iota = 2`. -/
def mutexStarving : Nat := 1 <<< 2

/-- Constant `mutexWaiterShift = iota` with `iota = 3`. -/
def mutexWaiterShift : Nat := 3

/-- Constant `starvationThresholdNs = 1e6`. -/
def starvationThresholdNs : Int := 1000000

/-! ## The mutex and the goroutine-local state of `Lock` / `Unlock` -/

/-- The struct `Mutex`: the `int32` state word and the `uint32` semaphore. -/
structure Mutex where
  state : Nat
  sema : Nat
  deriving DecidableEq, Repr

/-- Calls into the runtime made by a goroutine, in the order they are made. -/
inductive Call where
  | doSpin
  | semacquireMutex (lifo : Bool)
  | semrelease (handoff : Bool)
  deriving DecidableEq, Repr

/-- Program points of a goroutine: the next access to the shared mutex. -/
inductive PC where
  /-- outside `Lock` and `Unlock`, not holding the mutex -/
  | idle
  /-- entry of `Lock`, before the fast-path CAS (line 75) -/
  | lockEntry
  /-- entry of `lockSlow`, before `old := m.state` (line 90) -/
  | slowInit
  /-- head of the `for` loop of `lockSlow` (line 96), `old` is loaded -/
  | loopTop
  /-- before `old = m.state` (lines 109 and 188) -/
  | reload
  /-- before `runtime_SemacquireMutex` (line 158) -/
  | semacquire
  /-- resumed from the semaphore, before `old = m.state` (lines 160-161) -/
  | postWake
  /-- before `atomic.AddInt32(&m.state, delta)` (line 182) -/
  | handoffAdd
  /-- `Lock` has returned and the matching `Unlock` has not been called -/
  | owner
  /-- entry of `Unlock`, before `atomic.AddInt32(&m.state, -mutexLocked)` (line 211) -/
  | unlockEntry
  /-- head of the `for` loop of `unlockSlow` (line 234), `old` is loaded -/
  | unlockLoop
  /-- before `old = m.state` in `unlockSlow` (line 243) -/
  | unlockReload
  /-- before `runtime_Semrelease(&m.sema, false, 1)` (line 240) -/
  | releaseNormal
  /-- before `runtime_Semrelease(&m.sema, true, 1)` (line 251) -/
  | releaseHandoff
  /-- `throw` was called with this message -/
  | fatal (msg : String)
  deriving DecidableEq, Repr

/-- The local variables of a goroutine inside `Lock`/`lockSlow`/`Unlock`/`unlockSlow`. -/
structure G where
  pc : PC
  waitStartTime : Int
  starving : Bool
  awoke : Bool
  iter : Nat
  old : Nat
  delta : Nat
  queueLifo : Bool
  calls : List Call
  deriving DecidableEq, Repr

/-- What the runtime answers during one step: `runtime_canSpin(iter)` and
`runtime_nanotime()`, an `int64` carried as an integer. -/
structure Env where
  canSpin : Nat → Bool
  now : Int

/-- A goroutine that is in neither `Lock` nor `Unlock`. -/
def G.init : G :=
  { pc := .idle, waitStartTime := 0, starving := false, awoke := false, iter := 0,
    old := 0, delta := 0, queueLifo := false, calls := [] }

/-- The conversion of an integer to `int64`: the value modulo 2^64 in the signed range.
`runtime_nanotime()` and `waitStartTime` are `int64`, so their difference wraps. -/
def int64 (x : Int) : Int :=
  (x + 9223372036854775808) % 18446744073709551616 - 9223372036854775808

/-- The field `waiters` of a state word, as the code reads it: `s >> mutexWaiterShift`. -/
def waiters (s : Nat) : Int := sar32 s mutexWaiterShift

/-- The spin condition of `lockSlow` (line 96) without the call of `runtime_canSpin`. -/
def spinEligible (old : Nat) : Bool :=
  old &&& (mutexLocked ||| mutexStarving) == mutexLocked

/-- Whether the spin phase tries to set `mutexWoken` (line 102, before the CAS). -/
def spinWantsWoken (old : Nat) (awoke : Bool) : Bool :=
  !awoke && old &&& mutexWoken == 0 && waiters old != 0

/-- The state `new` as computed by lines 112-129 of `lockSlow`, before the `awoke` block. -/
def lockSlowNewPre (old : Nat) (starving : Bool) : Nat :=
  let new := old
  let new := if old &&& mutexStarving == 0 then new ||| mutexLocked else new
  let new := if old &&& (mutexLocked ||| mutexStarving) != 0
    then add32 new (1 <<< mutexWaiterShift) else new
  if starving && old &&& mutexLocked != 0 then new ||| mutexStarving else new

/-- Whether lines 131-136 of `lockSlow` throw "sync: inconsistent mutex state". -/
def lockSlowThrows (old : Nat) (starving awoke : Bool) : Bool :=
  awoke && lockSlowNewPre old starving &&& mutexWoken == 0

/-- The state `new` that `lockSlow` hands to the CAS of line 142. -/
def lockSlowNew (old : Nat) (starving awoke : Bool) : Nat :=
  if awoke then andNot32 (lockSlowNewPre old starving) mutexWoken
  else lockSlowNewPre old starving

/-- Whether the check of line 168 throws "sync: inconsistent mutex state". -/
def handoffThrows (old : Nat) : Bool :=
  old &&& (mutexLocked ||| mutexWoken) != 0 || waiters old == 0

/-- The value `delta` of lines 172-181. -/
def handoffDelta (old : Nat) (starving : Bool) : Nat :=
  let delta := sub32 mutexLocked (1 <<< mutexWaiterShift)
  if !starving || waiters old == 1 then sub32 delta mutexStarving else delta

/-- Whether `unlockSlow` throws "sync: unlock of unlocked mutex" (line 220). -/
def unlockThrows (new : Nat) : Bool :=
  add32 new mutexLocked &&& mutexLocked == 0

/-- Whether the loop of `unlockSlow` returns without waking anybody (line 234). -/
def unlockNoWake (old : Nat) : Bool :=
  waiters old == 0 || old &&& (mutexLocked ||| mutexWoken ||| mutexStarving) != 0

/-- The state `new` of line 238: one waiter less, `mutexWoken` set. -/
def unlockWakeNew (old : Nat) : Nat :=
  sub32 old (1 <<< mutexWaiterShift) ||| mutexWoken

/-- Modelled from the spec: `runtime_SemacquireMutex` and `runtime_Semrelease` are
declared in `sync/runtime.go` and implemented in the runtime, neither is among the
source files. The spec calls them "a counting block/wake primitive": acquiring parks
the caller until the count is positive and takes one unit, releasing adds one unit
and so lets exactly one parked caller through. `semacquireMutex` answers `none`
while the caller stays parked. -/
def semacquireMutex (sema : Nat) : Option Nat :=
  if 0 < sema then some (sema - 1) else none

/-- Modelled from the spec: `runtime_Semrelease`, see `semacquireMutex`. -/
def semrelease (sema : Nat) : Nat := sema + 1

/-- One step of a goroutine inside `Lock` or `Unlock`. `none` when the goroutine
cannot move: it is parked on the semaphore, has thrown, or is outside both calls. -/
def step (env : Env) (m : Mutex) (g : G) : Option (Mutex × G) :=
  match g.pc with
  | .idle => none
  | .owner => none
  | .fatal _ => none
  | .lockEntry =>
    -- atomic.CompareAndSwapInt32(&m.state, 0, mutexLocked)
    if m.state = 0 then some ({ m with state := mutexLocked }, { g with pc := .owner })
    else some (m, { g with pc := .slowInit })
  | .slowInit =>
    some (m, { g with pc := .loopTop, waitStartTime := 0, starving := false, awoke := false,
                      iter := 0, old := m.state })
  | .loopTop =>
    if spinEligible g.old && env.canSpin g.iter then
      -- lines 102-110; the reload of `old` is the next step
      if spinWantsWoken g.old g.awoke && m.state == g.old then
        some ({ m with state := g.old ||| mutexWoken },
              { g with pc := .reload, awoke := true, iter := g.iter + 1,
                       calls := g.calls ++ [.doSpin] })
      else
        some (m, { g with pc := .reload, iter := g.iter + 1, calls := g.calls ++ [.doSpin] })
    else if lockSlowThrows g.old g.starving g.awoke then
      some (m, { g with pc := .fatal "sync: inconsistent mutex state" })
    else if m.state = g.old then
      -- the CAS of line 142 succeeds
      let m1 := { m with state := lockSlowNew g.old g.starving g.awoke }
      if g.old &&& (mutexLocked ||| mutexStarving) == 0 then
        some (m1, { g with pc := .owner })
      else
        some (m1, { g with pc := .semacquire,
                           queueLifo := g.waitStartTime != 0,
                           waitStartTime := if g.waitStartTime == 0 then env.now
                                            else g.waitStartTime })
    else
      some (m, { g with pc := .reload })
  | .reload =>
    some (m, { g with pc := .loopTop, old := m.state })
  | .semacquire =>
    match semacquireMutex m.sema with
    | none => none
    | some s =>
      some ({ m with sema := s },
            { g with pc := .postWake, calls := g.calls ++ [.semacquireMutex g.queueLifo] })
  | .postWake =>
    -- starving = starving || runtime_nanotime()-waitStartTime > starvationThresholdNs
    let starving := g.starving ||
      decide (int64 (env.now - g.waitStartTime) > starvationThresholdNs)
    let old := m.state
    if old &&& mutexStarving != 0 then
      if handoffThrows old then
        some (m, { g with pc := .fatal "sync: inconsistent mutex state",
                          starving := starving, old := old })
      else
        some (m, { g with pc := .handoffAdd, starving := starving, old := old,
                          delta := handoffDelta old starving })
    else
      some (m, { g with pc := .loopTop, starving := starving, old := old,
                        awoke := true, iter := 0 })
  | .handoffAdd =>
    some ({ m with state := add32 m.state g.delta }, { g with pc := .owner })
  | .unlockEntry =>
    -- new := atomic.AddInt32(&m.state, -mutexLocked)
    let new := sub32 m.state mutexLocked
    let m1 := { m with state := new }
    if new != 0 then
      if unlockThrows new then
        some (m1, { g with pc := .fatal "sync: unlock of unlocked mutex" })
      else if new &&& mutexStarving == 0 then
        some (m1, { g with pc := .unlockLoop, old := new })
      else
        some (m1, { g with pc := .releaseHandoff })
    else
      some (m1, { g with pc := .idle })
  | .unlockLoop =>
    if unlockNoWake g.old then some (m, { g with pc := .idle })
    else if m.state = g.old then
      some ({ m with state := unlockWakeNew g.old }, { g with pc := .releaseNormal })
    else
      some (m, { g with pc := .unlockReload })
  | .unlockReload =>
    some (m, { g with pc := .unlockLoop, old := m.state })
  | .releaseNormal =>
    some ({ m with sema := semrelease m.sema },
          { g with pc := .idle, calls := g.calls ++ [.semrelease false] })
  | .releaseHandoff =>
    some ({ m with sema := semrelease m.sema },
          { g with pc := .idle, calls := g.calls ++ [.semrelease true] })

/-- Runs one goroutine alone for at most `fuel` steps, every step with the same
answers of the runtime; stops as soon as the goroutine cannot move. -/
def run (env : Env) : Nat → Mutex → G → Mutex × G
  | 0, m, g => (m, g)
  | fuel + 1, m, g =>
    match step env m g with
    | none => (m, g)
    | some (m1, g1) => run env fuel m1 g1

/-! ## Several goroutines on one mutex -/

/-- A mutex shared by the goroutines `gs`. -/
structure Sys where
  m : Mutex
  gs : List G

/-- The zero-value mutex and `n` goroutines outside `Lock` and `Unlock`. -/
def Sys.init (n : Nat) : Sys := { m := { state := 0, sema := 0 }, gs := List.replicate n G.init }

end GoSync

namespace GoRuntime

/-! ## `netpoll_epoll.go` -/

/-- The constants `_EPOLLIN`, ..., `_EINTR`, `_EAGAIN` that `netpoll_epoll.go` uses;
they are declared in the per-platform `defs` files, so they are kept as parameters. -/
structure EpollConsts where
  _EPOLLIN : Nat
  _EPOLLOUT : Nat
  _EPOLLERR : Nat
  _EPOLLHUP : Nat
  _EPOLLRDHUP : Nat
  _EPOLLET : Nat
  _EINTR : Int
  _EAGAIN : Int
  _EPOLL_CTL_ADD : Int
  _EPOLL_CTL_DEL : Int

/-- Modelled from the spec: the values of the `_EPOLL*` and errno constants are not
in the source files; the spec only names the kernel interface ("Linux edge-triggered
readiness family"), and these are the values of that interface on linux/amd64. -/
def linuxConsts : EpollConsts :=
  { _EPOLLIN := 0x1, _EPOLLOUT := 0x4, _EPOLLERR := 0x8, _EPOLLHUP := 0x10,
    _EPOLLRDHUP := 0x2000, _EPOLLET := 0x80000000, _EINTR := 4, _EAGAIN := 11,
    _EPOLL_CTL_ADD := 1, _EPOLL_CTL_DEL := 2 }

/-- The conversion `int32(x)` of an `int64`: the low 32 bits, read as a signed value. -/
def int32 (x : Int) : Int := (x + 2147483648) % 4294967296 - 2147483648

/-- The timeout `waitms` that `netpoll(delay)` hands to `epollwait` (lines 123-136). -/
def waitms (delay : Int) : Int :=
  if delay < 0 then -1
  else if delay = 0 then 0
  else if delay < 1000000 then 1
  else if delay < 1000000000000000 then int32 (Int.tdiv delay 1000000)
  else 1000000000

/-- The `data` field of an `epollevent`: the address of `netpollBreakRd`, or the
pointer to a `pollDesc` (named by a number). -/
inductive EvData where
  | breakRd
  | pd (d : Nat)
  deriving DecidableEq, Repr

/-- The struct `epollevent`: the `uint32` flags and the user data. -/
structure epollevent where
  events : Nat
  data : EvData
  deriving DecidableEq, Repr

/-- What one call of `epollwait` gives back: the return value `n` and the array
`events` it has filled. -/
structure WaitAnswer where
  n : Int
  events : List epollevent
  deriving DecidableEq, Repr

/-- The state `netpoll` works on: the globals `epfd` and `netpollWakeSig`, the field
`everr` of every `pollDesc`, and a record of what the calls have done: the timeouts
handed to `epollwait`, the number of `read` calls on the break pipe, the number of
`write` calls on it and of bytes they have posted, the calls
`netpollready(&toRun, pd, mode)` in order, and the message of a `throw`. -/
structure Poller where
  epfd : Int
  netpollWakeSig : Nat
  everr : Nat → Bool
  waitCalls : List Int
  breakReads : Nat
  breakWrites : Nat
  breakPosted : Nat
  toRun : List (Nat × Int)
  fatal : Option String

/-- The value `mode` of lines 179-185: `'r'` is 114 and `'w'` is 119. -/
def eventMode (c : EpollConsts) (events : Nat) : Int :=
  let mode : Int := 0
  let mode := if events &&& (c._EPOLLIN ||| c._EPOLLRDHUP ||| c._EPOLLHUP ||| c._EPOLLERR) ≠ 0
    then mode + 114 else mode
  let mode := if events &&& (c._EPOLLOUT ||| c._EPOLLHUP ||| c._EPOLLERR) ≠ 0
    then mode + 119 else mode
  mode

/-- The body of the `for` loop of `netpoll` (lines 156-193) for one event. -/
def netpollEvent (c : EpollConsts) (delay : Int) (p : Poller) (ev : epollevent) : Poller :=
  if ev.events = 0 then p
  else
    match ev.data with
    | .breakRd =>
      if ev.events ≠ c._EPOLLIN then
        { p with fatal := some "runtime: netpoll: break fd ready for something unexpected" }
      else if delay ≠ 0 then
        { p with breakReads := p.breakReads + 1, netpollWakeSig := 0 }
      else p
    | .pd d =>
      let mode := eventMode c ev.events
      if mode ≠ 0 then
        { p with everr := Function.update p.everr d (decide (ev.events = c._EPOLLERR)),
                 toRun := p.toRun ++ [(d, mode)] }
      else p

/-- The `for` loop of `netpoll` over the reported events; a `throw` ends it. -/
def netpollEvents (c : EpollConsts) (delay : Int) : List epollevent → Poller → Poller
  | [], p => p
  | ev :: rest, p =>
    let p1 := netpollEvent c delay p ev
    if p1.fatal.isSome then p1 else netpollEvents c delay rest p1

/-- The part of `netpoll` from the label `retry` on (lines 138-195). The list holds
what the successive `epollwait` calls give back; `none` when the calls it holds are
used up before `netpoll` returns. -/
def netpollRetry (c : EpollConsts) (delay : Int) : List WaitAnswer → Poller → Option Poller
  | [], _ => none
  | a :: rest, p =>
    let p1 := { p with waitCalls := p.waitCalls ++ [waitms delay] }
    if a.n < 0 then
      if a.n ≠ -c._EINTR then some { p1 with fatal := some "runtime: netpoll failed" }
      else if waitms delay > 0 then some p1
      else netpollRetry c delay rest p1
    else some (netpollEvents c delay (a.events.take a.n.toNat) p1)

/-- The function `netpoll(delay)`; the ready list `toRun` starts empty. -/
def netpoll (c : EpollConsts) (delay : Int) (answers : List WaitAnswer) (p : Poller) :
    Option Poller :=
  if p.epfd = -1 then some { p with toRun := [] }
  else netpollRetry c delay answers { p with toRun := [] }

/-- The spec's rounding of a positive delay: "converted to millisecond granularity
..., rounded up", the least number of whole milliseconds that covers `delay`. -/
def ceilMs (delay : Int) : Int := (delay + 999999) / 1000000

/-- What the loop of `netpoll` hands to `netpollready` for one event on its own:
nothing for an event without flags, for the break pipe and for an empty mode. -/
def readyOf (c : EpollConsts) (ev : epollevent) : Option (Nat × Int) :=
  if ev.events = 0 then none
  else
    match ev.data with
    | .breakRd => none
    | .pd d => if eventMode c ev.events ≠ 0 then some (d, eventMode c ev.events) else none

/-- An event on the break pipe that makes `netpoll` throw (lines 162-166): it has
flags, and they are not exactly `_EPOLLIN`. -/
def badBreak (c : EpollConsts) (ev : epollevent) : Bool :=
  decide (ev.events ≠ 0) && decide (ev.data = .breakRd) && decide (ev.events ≠ c._EPOLLIN)

/-- The `for` loop of `netpollBreak` (lines 90-104). The list holds what the
successive `write` calls of one byte return, a call posts its byte exactly when it
returns 1; the result carries the answers not yet used. `none` when the answers
are used up before the loop ends. -/
def netpollBreakLoop (c : EpollConsts) : List Int → Poller → Option (Poller × List Int)
  | [], _ => none
  | n :: rest, p =>
    let p1 := { p with breakWrites := p.breakWrites + 1,
                       breakPosted := if n = 1 then p.breakPosted + 1 else p.breakPosted }
    if n = 1 then some (p1, rest)
    else if n = -c._EINTR then netpollBreakLoop c rest p1
    else if n = -c._EAGAIN then some (p1, rest)
    else some ({ p1 with fatal := some "runtime: netpollBreak write failed" }, rest)

/-- The function `netpollBreak`: `atomic.Cas(&netpollWakeSig, 0, 1)` guards the loop. -/
def netpollBreak (c : EpollConsts) (writes : List Int) (p : Poller) :
    Option (Poller × List Int) :=
  if p.netpollWakeSig = 0 then netpollBreakLoop c writes { p with netpollWakeSig := 1 }
  else some (p, writes)

/-- A run of `k` calls of `netpollBreak` one after the other, with no `netpoll` in
between; a `throw` ends the run. -/
def netpollBreaks (c : EpollConsts) : Nat → List Int → Poller → Option (Poller × List Int)
  | 0, writes, p => some (p, writes)
  | k + 1, writes, p =>
    match netpollBreak c writes p with
    | none => none
    | some (p1, rest) => if p1.fatal.isSome then some (p1, rest) else netpollBreaks c k rest p1

/-- The arguments of one call `epollctl(epfd, op, fd, &ev)`. -/
structure CtlCall where
  epfd : Int
  op : Int
  fd : Int
  events : Nat
  data : EvData
  deriving DecidableEq, Repr

/-- The function `netpollopen(fd, pd)`; `epollctl` stands for the system call, which
is written in assembly. The result is the `int32` negation of what it returns. -/
def netpollopen (c : EpollConsts) (epollctl : CtlCall → Int) (epfd : Int) (fd : Nat)
    (pd : Nat) : Int :=
  int32 (-(epollctl { epfd := epfd, op := c._EPOLL_CTL_ADD, fd := int32 fd,
                      events := c._EPOLLIN ||| c._EPOLLOUT ||| c._EPOLLRDHUP ||| c._EPOLLET,
                      data := .pd pd }))

/-! ## `sys_x86.go` -/

/-- The struct `gobuf`: the fields `sp`, `pc` and `ctxt` that `gostartcall` touches,
and `rest` for all its other fields (the type is declared in `runtime2.go`). -/
structure gobuf (R : Type) where
  sp : Nat
  pc : Nat
  ctxt : Nat
  rest : R

/-- Wrapping subtraction of `uintptr` values of `PtrSize` bytes. -/
def uintptrSub (PtrSize a b : Nat) : Nat :=
  (((a : Int) - (b : Int)) % ((2 : Int) ^ (8 * PtrSize))).toNat

/-- The function `gostartcall(buf, fn, ctxt)`. The constants `sys.PtrSize` and
`sys.RegSize` are parameters; the memory maps an address to the machine word
stored there. -/
def gostartcall {R : Type} (PtrSize RegSize : Nat) (buf : gobuf R) (mem : Nat → Nat)
    (fn ctxt : Nat) : gobuf R × (Nat → Nat) :=
  let sp := buf.sp
  let (sp, mem) :=
    if RegSize > PtrSize then
      (uintptrSub PtrSize sp PtrSize, Function.update mem (uintptrSub PtrSize sp PtrSize) 0)
    else (sp, mem)
  let sp := uintptrSub PtrSize sp PtrSize
  let mem := Function.update mem sp buf.pc
  ({ buf with sp := sp, pc := fn, ctxt := ctxt }, mem)

end GoRuntime

namespace GoSync

/-! ## The invariant of the concurrent system -/

end GoSync

/-! # Proofs -/

namespace GoSync

/-! ## Bit-level lemmas on state words -/

theorem land_split (a r b s : Nat) (hr : r < 8) (hs : s < 8) :
    (8 * a + r) &&& (8 * b + s) = 8 * (a &&& b) + (r &&& s) := by
  have h8 : (8:Nat) = 2^3 := by norm_num
  have hrs : (r &&& s) < 2^3 := lt_of_le_of_lt Nat.and_le_left (by omega)
  rw [h8] at *
  apply Nat.eq_of_testBit_eq; intro i
  rw [Nat.testBit_and, Nat.testBit_mul_pow_two_add _ hr, Nat.testBit_mul_pow_two_add _ hs,
    Nat.testBit_mul_pow_two_add _ hrs]
  split <;> simp [Nat.testBit_and]

theorem lor_split (a r b s : Nat) (hr : r < 8) (hs : s < 8) :
    (8 * a + r) ||| (8 * b + s) = 8 * (a ||| b) + (r ||| s) := by
  have h8 : (8:Nat) = 2^3 := by norm_num
  rw [h8] at *
  have hrs : (r ||| s) < 2^3 := Nat.or_lt_two_pow hr hs
  apply Nat.eq_of_testBit_eq; intro i
  rw [Nat.testBit_or, Nat.testBit_mul_pow_two_add _ hr, Nat.testBit_mul_pow_two_add _ hs,
    Nat.testBit_mul_pow_two_add _ hrs]
  split <;> simp [Nat.testBit_or]

theorem land_low (w c : Nat) (hc : c < 8) : w &&& c = (w % 8) &&& c := by
  have h := land_split (w / 8) (w % 8) 0 c (Nat.mod_lt _ (by norm_num)) hc
  have e : 8 * (w / 8) + w % 8 = w := Nat.div_add_mod w 8
  simpa [e] using h

theorem lor_low (w c : Nat) (hc : c < 8) : w ||| c = 8 * (w / 8) + ((w % 8) ||| c) := by
  have h := lor_split (w / 8) (w % 8) 0 c (Nat.mod_lt _ (by norm_num)) hc
  have e : 8 * (w / 8) + w % 8 = w := Nat.div_add_mod w 8
  simpa [e] using h

theorem land_high (w : Nat) (hw : w < 4294967296) (s : Nat) (hs : s < 8) :
    w &&& (4294967288 + s) = 8 * (w / 8) + ((w % 8) &&& s) := by
  have h := land_split (w / 8) (w % 8) 536870911 s (Nat.mod_lt _ (by norm_num)) hs
  have e : 8 * (w / 8) + w % 8 = w := Nat.div_add_mod w 8
  have e2 : (w / 8) &&& 536870911 = w / 8 := by
    have := Nat.and_pow_two_sub_one_eq_mod (w / 8) 29
    norm_num at this
    rw [this]; apply Nat.mod_eq_of_lt; omega
  rw [e, e2] at h
  simpa using h

theorem and_1 (w : Nat) : w &&& 1 = w % 2 := Nat.and_one_is_mod w

theorem and_2 (w : Nat) : w &&& 2 = 2 * (w / 2 % 2) := by
  rw [land_low w 2 (by norm_num)]
  have h1 : w % 8 < 8 := Nat.mod_lt _ (by norm_num)
  have h2 : w / 2 % 2 = (w % 8) / 2 % 2 := by omega
  rw [h2]; generalize w % 8 = r at h1
  interval_cases r <;> rfl

theorem and_3 (w : Nat) : w &&& 3 = w % 4 := by
  rw [land_low w 3 (by norm_num)]
  have h1 : w % 8 < 8 := Nat.mod_lt _ (by norm_num)
  have h2 : w % 4 = (w % 8) % 4 := by omega
  rw [h2]; generalize w % 8 = r at h1
  interval_cases r <;> rfl

theorem and_4 (w : Nat) : w &&& 4 = 4 * (w / 4 % 2) := by
  rw [land_low w 4 (by norm_num)]
  have h1 : w % 8 < 8 := Nat.mod_lt _ (by norm_num)
  have h2 : w / 4 % 2 = (w % 8) / 4 := by omega
  rw [h2]; generalize w % 8 = r at h1
  interval_cases r <;> rfl

theorem and_5 (w : Nat) : w &&& 5 = w % 2 + 4 * (w / 4 % 2) := by
  rw [land_low w 5 (by norm_num)]
  have h1 : w % 8 < 8 := Nat.mod_lt _ (by norm_num)
  have h2 : w % 2 + 4 * (w / 4 % 2) = (w % 8) % 2 + 4 * ((w % 8) / 4) := by omega
  rw [h2]; generalize w % 8 = r at h1
  interval_cases r <;> rfl

theorem and_7 (w : Nat) : w &&& 7 = w % 8 := by
  rw [land_low w 7 (by norm_num)]
  have h1 : w % 8 < 8 := Nat.mod_lt _ (by norm_num)
  generalize w % 8 = r at h1
  interval_cases r <;> rfl

theorem or_1 (w : Nat) : w ||| 1 = w + 1 - w % 2 := by
  rw [lor_low w 1 (by norm_num)]
  have h1 : w % 8 < 8 := Nat.mod_lt _ (by norm_num)
  have h2 : w + 1 - w % 2 = 8 * (w / 8) + (w % 8 + 1 - (w % 8) % 2) := by omega
  rw [h2]; generalize w % 8 = r at h1
  interval_cases r <;> rfl

theorem or_2 (w : Nat) : w ||| 2 = w + 2 - 2 * (w / 2 % 2) := by
  rw [lor_low w 2 (by norm_num)]
  have h1 : w % 8 < 8 := Nat.mod_lt _ (by norm_num)
  have h2 : w + 2 - 2 * (w / 2 % 2) = 8 * (w / 8) + (w % 8 + 2 - 2 * ((w % 8) / 2 % 2)) := by
    omega
  rw [h2]; generalize w % 8 = r at h1
  interval_cases r <;> rfl

theorem or_4 (w : Nat) : w ||| 4 = w + 4 - 4 * (w / 4 % 2) := by
  rw [lor_low w 4 (by norm_num)]
  have h1 : w % 8 < 8 := Nat.mod_lt _ (by norm_num)
  have h2 : w + 4 - 4 * (w / 4 % 2) = 8 * (w / 8) + (w % 8 + 4 - 4 * ((w % 8) / 4)) := by
    omega
  rw [h2]; generalize w % 8 = r at h1
  interval_cases r <;> rfl

theorem andNot32_2 (w : Nat) (hw : w < 4294967296) :
    andNot32 w 2 = w - 2 * (w / 2 % 2) := by
  have e : (2 ^^^ 4294967295 : Nat) = 4294967288 + 5 := by decide
  rw [andNot32, e, land_high w hw 5 (by norm_num)]
  have h1 : w % 8 < 8 := Nat.mod_lt _ (by norm_num)
  have h2 : w - 2 * (w / 2 % 2) = 8 * (w / 8) + (w % 8 - 2 * ((w % 8) / 2 % 2)) := by omega
  rw [h2]; generalize w % 8 = r at h1
  interval_cases r <;> rfl

theorem waiters_eq (w : Nat) :
    waiters w = if w < 2147483648 then ((w / 8 : Nat) : Int) else ((w / 8 : Nat) : Int) - 536870912 := by
  unfold waiters sar32 toInt32 mutexWaiterShift
  split <;> omega

theorem mutexLocked_val : mutexLocked = 1 := rfl
theorem mutexWoken_val : mutexWoken = 2 := rfl
theorem mutexStarving_val : mutexStarving = 4 := rfl
theorem mutexWaiterShift_val : mutexWaiterShift = 3 := rfl

end GoSync

namespace GoSync

theorem lor_1_4 : (1 ||| 4 : Nat) = 5 := by decide
theorem lor_1_2 : (1 ||| 2 : Nat) = 3 := by decide
theorem lor_1_2_4 : (1 ||| 2 ||| 4 : Nat) = 7 := by decide
theorem shl_1_3 : (1 <<< 3 : Nat) = 8 := by decide

theorem spinEligible_iff (w : Nat) : spinEligible w = true ↔ w % 2 = 1 ∧ w / 4 % 2 = 0 := by
  simp only [spinEligible, mutexLocked_val, mutexStarving_val, lor_1_4, and_5, beq_iff_eq]
  omega

theorem waiters_eq_zero_iff (w : Nat) (hw : w < 4294967296) : waiters w = 0 ↔ w / 8 = 0 := by
  rw [waiters_eq]; split <;> omega

theorem waiters_eq_one_iff (w : Nat) (hw : w < 4294967296) : waiters w = 1 ↔ w / 8 = 1 := by
  rw [waiters_eq]; split <;> omega

theorem add32_cases (a b : Nat) (ha : a < 4294967296) (hb : b < 4294967296) :
    add32 a b < 4294967296 ∧ (add32 a b = a + b ∨ add32 a b + 4294967296 = a + b) := by
  unfold add32; omega

theorem sub32_cases (a b : Nat) (ha : a < 4294967296) (hb : b < 4294967296) :
    sub32 a b < 4294967296 ∧ (sub32 a b + b = a ∨ sub32 a b + b = a + 4294967296) := by
  unfold sub32; omega

theorem sub32_lt (a b : Nat) : sub32 a b < 4294967296 := by
  unfold sub32; omega

theorem add32_lt (a b : Nat) : add32 a b < 4294967296 := by
  unfold add32; omega

theorem unlockThrows_sub (s : Nat) (hs : s < 4294967296) :
    unlockThrows (sub32 s mutexLocked) = true ↔ s % 2 = 0 := by
  have h1 := sub32_cases s 1 hs (by norm_num)
  have h2 := add32_cases (sub32 s 1) 1 h1.1 (by norm_num)
  simp only [unlockThrows, mutexLocked_val, and_1, beq_iff_eq]
  omega

theorem step_unlockEntry_clear (env : Env) (s sema : Nat) (g : G) (hs : s < 4294967296)
    (hpc : g.pc = .unlockEntry) (hbit : s % 2 = 0) :
    step env ⟨s, sema⟩ g = some (⟨sub32 s mutexLocked, sema⟩,
      { g with pc := .fatal "sync: unlock of unlocked mutex" }) := by
  have h1 := sub32_cases s 1 hs (by norm_num)
  have ht := (unlockThrows_sub s hs).2 hbit
  have hne : sub32 s mutexLocked ≠ 0 := by simp only [mutexLocked_val]; omega
  simp [step, hpc, ht, hne]

theorem step_unlockEntry_set (env : Env) (s sema : Nat) (g : G) (hs : s < 4294967296)
    (hpc : g.pc = .unlockEntry) (hbit : s % 2 = 1) (m1 : Mutex) (g1 : G)
    (h : step env ⟨s, sema⟩ g = some (m1, g1)) :
    m1 = ⟨s - 1, sema⟩ ∧ (g1.pc = .idle ∨ g1.pc = .unlockLoop ∨ g1.pc = .releaseHandoff) := by
  have h1 := sub32_cases s 1 hs (by norm_num)
  have e : sub32 s mutexLocked = s - 1 := by simp only [mutexLocked_val]; omega
  have ht : unlockThrows (sub32 s mutexLocked) = false := by
    have := (unlockThrows_sub s hs).not.2 (by omega)
    simpa using this
  rw [e] at ht
  simp only [step, hpc, e, ht] at h
  simp only [Bool.false_eq_true, if_false] at h
  split_ifs at h <;>
    (simp only [Option.some.injEq, Prod.mk.injEq] at h; obtain ⟨rfl, rfl⟩ := h; simp)

theorem run_unlock_tail (env : Env) (fuel : Nat) (m : Mutex) (g : G)
    (h : g.pc = .idle ∨ g.pc = .unlockLoop ∨ g.pc = .unlockReload ∨ g.pc = .releaseNormal ∨
      g.pc = .releaseHandoff) :
    (run env fuel m g).2.pc = .idle ∨ (run env fuel m g).2.pc = .unlockLoop ∨
      (run env fuel m g).2.pc = .unlockReload ∨ (run env fuel m g).2.pc = .releaseNormal ∨
      (run env fuel m g).2.pc = .releaseHandoff := by
  induction fuel generalizing m g with
  | zero => simp only [run]; exact h
  | succ n ih =>
    rcases h with h | h | h | h | h <;> simp only [run, step, h]
    · simp
    · split_ifs <;> exact ih _ _ (by simp)
    · exact ih _ _ (by simp)
    · exact ih _ _ (by simp)
    · exact ih _ _ (by simp)
/-! ## Claims on `Lock` and `Unlock` run by one goroutine -/

/-- C1: `Unlock` throws "sync: unlock of unlocked mutex" exactly when the locked bit
of the state word is clear when it is called: with the bit clear every run of
`Unlock` ends in the throw (so it never returns), with the bit set no run of
`Unlock` reaches that throw. -/
theorem Unlock_fatal_iff_unlocked (env : Env) (s sema : Nat) (g : G)
    (hs : s < 4294967296) (hpc : g.pc = .unlockEntry) :
    (s &&& mutexLocked = 0 →
      ∀ fuel, (run env (fuel + 1) ⟨s, sema⟩ g).2.pc
        = .fatal "sync: unlock of unlocked mutex") ∧
    (s &&& mutexLocked ≠ 0 →
      ∀ fuel, (run env fuel ⟨s, sema⟩ g).2.pc ≠ .fatal "sync: unlock of unlocked mutex") := by
  rw [mutexLocked_val, and_1]
  constructor
  · intro hbit fuel
    have h := step_unlockEntry_clear env s sema g hs hpc hbit
    simp only [run, h]
    cases fuel <;> simp [run, step]
  · intro hbit fuel
    have hbit1 : s % 2 = 1 := by omega
    cases fuel with
    | zero => simp [run, hpc]
    | succ n =>
      simp only [run]
      cases hstep : step env ⟨s, sema⟩ g with
      | none => simp [hpc]
      | some r =>
        obtain ⟨m1, g1⟩ := r
        have h := step_unlockEntry_set env s sema g hs hpc hbit1 m1 g1 hstep
        have ht := run_unlock_tail env n m1 g1 (by tauto)
        simp only
        rcases ht with ht | ht | ht | ht | ht <;> simp [ht]

theorem Unlock_fatal_iff_unlocked_witness :
    (6 < 4294967296 ∧ ({ G.init with pc := .unlockEntry } : G).pc = .unlockEntry) ∧
    ((6 &&& mutexLocked = 0 →
      ∀ fuel, (run ⟨fun _ => false, 0⟩ (fuel + 1) ⟨6, 0⟩ { G.init with pc := .unlockEntry }).2.pc
        = .fatal "sync: unlock of unlocked mutex") ∧
    (6 &&& mutexLocked ≠ 0 →
      ∀ fuel, (run ⟨fun _ => false, 0⟩ fuel ⟨6, 0⟩ { G.init with pc := .unlockEntry }).2.pc
        ≠ .fatal "sync: unlock of unlocked mutex")) :=
  ⟨⟨by norm_num, rfl⟩,
    Unlock_fatal_iff_unlocked ⟨fun _ => false, 0⟩ 6 0 { G.init with pc := .unlockEntry }
      (by norm_num) rfl⟩

theorem step_lockEntry_zero (env : Env) (sema : Nat) (g : G) :
    step env ⟨0, sema⟩ { g with pc := .lockEntry }
      = some (⟨mutexLocked, sema⟩, { g with pc := .owner }) := by
  simp only [step]; simp

theorem step_owner (env : Env) (m : Mutex) (g : G) :
    step env m { g with pc := .owner } = none := rfl

theorem step_idle (env : Env) (m : Mutex) (g : G) :
    step env m { g with pc := .idle } = none := rfl

theorem step_unlockEntry_one (env : Env) (sema : Nat) (g : G) :
    step env ⟨mutexLocked, sema⟩ { g with pc := .unlockEntry }
      = some (⟨0, sema⟩, { g with pc := .idle }) := by
  have e : sub32 mutexLocked mutexLocked = 0 := by decide
  simp only [step, e]; simp

theorem run_of_step_stop (env : Env) (fuel : Nat) (m m1 : Mutex) (g g1 : G)
    (h1 : step env m g = some (m1, g1)) (h2 : step env m1 g1 = none) :
    run env (fuel + 1) m g = (m1, g1) := by
  simp only [run, h1]
  cases fuel
  · rfl
  · simp only [run, h2]

/-- C4: on a mutex whose state word is 0, `Lock` takes the fast path: it sets the
state to `mutexLocked` (which is 1) and returns, without a spin and without the
semaphore; the `Unlock` that follows puts the state back to 0 and returns, without
releasing the semaphore and without a throw. -/
theorem uncontended_round_trip (env : Env) (sema fuel : Nat) (g : G) :
    run env (fuel + 1) ⟨0, sema⟩ { g with pc := .lockEntry }
      = (⟨mutexLocked, sema⟩, { g with pc := .owner }) ∧
    mutexLocked = 1 ∧
    run env (fuel + 1) ⟨mutexLocked, sema⟩ { g with pc := .unlockEntry }
      = (⟨0, sema⟩, { g with pc := .idle }) :=
  ⟨run_of_step_stop env fuel _ _ _ _ (step_lockEntry_zero env sema g) (step_owner env _ g),
   mutexLocked_val,
   run_of_step_stop env fuel _ _ _ _ (step_unlockEntry_one env sema g) (step_idle env _ g)⟩

end GoSync

namespace GoRuntime

/-! ## Claims on `netpoll_epoll.go` -/

theorem lor_eq_zero (u v : Nat) (h : u ||| v = 0) : u = 0 ∧ v = 0 := by
  constructor <;> apply Nat.eq_of_testBit_eq <;> intro i <;>
    have := congrArg (fun x => x.testBit i) h <;>
    simp [Nat.testBit_or] at this <;> simp [this]

theorem land_lor_left (a x y : Nat) (h : a &&& x ≠ 0) : a &&& (x ||| y) ≠ 0 := by
  intro h0
  rw [Nat.and_or_distrib_left] at h0
  exact h (lor_eq_zero _ _ h0).1

theorem land_lor_right (a x y : Nat) (h : a &&& y ≠ 0) : a &&& (x ||| y) ≠ 0 := by
  intro h0
  rw [Nat.and_or_distrib_left] at h0
  exact h (lor_eq_zero _ _ h0).2

theorem tdiv_ms (delay : Int) (h : 0 ≤ delay) : Int.tdiv delay 1000000 = delay / 1000000 :=
  Int.tdiv_eq_ediv h (by norm_num)

theorem waitms_val (delay : Int) (h : 0 ≤ delay) :
    waitms delay = if delay = 0 then 0 else if delay < 1000000 then 1
      else if delay < 1000000000000000 then delay / 1000000 else 1000000000 := by
  rw [waitms, tdiv_ms delay h, if_neg (by omega)]
  unfold int32
  split_ifs <;> omega

/-- C6: the timeout handed to `epollwait` keeps the sign of the delay and is bounded:
it is -1 exactly for a negative delay, 0 exactly for the delay 0, between 1 and
1000000000 for every positive delay, the conversion to `int32` changes nothing, and
from `1e15` on it is exactly 1000000000. -/
theorem waitms_sign_and_bound (delay : Int) :
    (waitms delay = -1 ↔ delay < 0) ∧
    (waitms delay = 0 ↔ delay = 0) ∧
    (0 < delay → 1 ≤ waitms delay ∧ waitms delay ≤ 1000000000) ∧
    (0 < delay → int32 (Int.tdiv delay 1000000) = Int.tdiv delay 1000000 ∨
      1000000000000000 ≤ delay) ∧
    (1000000000000000 ≤ delay → waitms delay = 1000000000) := by
  by_cases h : 0 ≤ delay
  · have hw := waitms_val delay h
    have hr : delay = 0 ∨ (0 < delay ∧ delay < 1000000) ∨
        (1000000 ≤ delay ∧ delay < 1000000000000000) ∨ 1000000000000000 ≤ delay := by omega
    rw [tdiv_ms delay h]
    unfold int32
    rcases hr with hr | hr | hr | hr
    · rw [if_pos hr] at hw
      rw [hw]
      refine ⟨⟨?_, ?_⟩, ⟨?_, ?_⟩, ?_, ?_, ?_⟩ <;> intro _ <;> omega
    · rw [if_neg (by omega), if_pos hr.2] at hw
      rw [hw]
      refine ⟨⟨?_, ?_⟩, ⟨?_, ?_⟩, ?_, ?_, ?_⟩ <;> intro _ <;> omega
    · rw [if_neg (by omega), if_neg (by omega), if_pos hr.2] at hw
      rw [hw]
      refine ⟨⟨?_, ?_⟩, ⟨?_, ?_⟩, ?_, ?_, ?_⟩ <;> intro _ <;> omega
    · rw [if_neg (by omega), if_neg (by omega), if_neg (by omega)] at hw
      rw [hw]
      refine ⟨⟨?_, ?_⟩, ⟨?_, ?_⟩, ?_, ?_, ?_⟩ <;> intro _ <;> omega
  · have e1 : waitms delay = -1 := by
      rw [waitms, if_pos (by omega)]
    rw [e1]
    refine ⟨⟨?_, ?_⟩, ⟨?_, ?_⟩, ?_, ?_, ?_⟩ <;> intro _ <;> omega

theorem waitms_sign_and_bound_witness :
    (0 < (1500000 : Int) → 1 ≤ waitms 1500000 ∧ waitms 1500000 ≤ 1000000000) :=
  (waitms_sign_and_bound 1500000).2.2.1

/-- C7, as the code has it: for a positive delay below `1e15` the timeout is 1 below
one millisecond and otherwise the delay divided by `1e6` and rounded down; it is the
delay rounded up exactly when the delay is below `1e6` or a multiple of `1e6`, and
in general it only covers more than `delay - 1e6` nanoseconds. -/
theorem waitms_rounds_down (delay : Int) (h1 : 0 < delay) (h2 : delay < 1000000000000000) :
    waitms delay = max 1 (delay / 1000000) ∧
    (waitms delay = ceilMs delay ↔ delay < 1000000 ∨ delay % 1000000 = 0) ∧
    delay - 1000000 < waitms delay * 1000000 ∧
    (delay < 1000000 ∨ delay % 1000000 = 0 → delay ≤ waitms delay * 1000000) := by
  rw [waitms, tdiv_ms delay (by omega)]
  unfold int32 ceilMs
  refine ⟨?_, ?_, ?_, ?_⟩ <;> (try split_ifs) <;> omega

theorem waitms_rounds_down_witness :
    (0 < (2000000 : Int) ∧ (2000000 : Int) < 1000000000000000) ∧
    (waitms 2000000 = max 1 (2000000 / 1000000) ∧
    (waitms 2000000 = ceilMs 2000000 ↔ (2000000 : Int) < 1000000 ∨ (2000000 : Int) % 1000000 = 0) ∧
    (2000000 : Int) - 1000000 < waitms 2000000 * 1000000 ∧
    ((2000000 : Int) < 1000000 ∨ (2000000 : Int) % 1000000 = 0 →
      2000000 ≤ waitms 2000000 * 1000000)) :=
  ⟨⟨by norm_num, by norm_num⟩, waitms_rounds_down 2000000 (by norm_num) (by norm_num)⟩

/-- C7 as stated fails: for a delay of 1.5 ms the timeout is 1 ms, not the 2 ms of
the delay rounded up, and 1 ms does not cover the delay. -/
theorem waitms_not_ceil :
    (0 < (1500000 : Int) ∧ (1500000 : Int) < 1000000000000000) ∧
    waitms 1500000 = 1 ∧ ceilMs 1500000 = 2 ∧ waitms 1500000 * 1000000 < 1500000 := by
  decide

/-- C8: the mode of an event with flags, not on the break pipe, has `'r'` (114)
exactly when the flags meet `_EPOLLIN|_EPOLLRDHUP|_EPOLLHUP|_EPOLLERR` and `'w'`
(119) exactly when they meet `_EPOLLOUT|_EPOLLHUP|_EPOLLERR`; it is one of 0, `'r'`,
`'w'`, `'r'+'w'` (233), it is `'r'+'w'` whenever the flags carry `_EPOLLHUP` or
`_EPOLLERR`, and it is the mode handed to `netpollready`. -/
theorem eventMode_translation (c : EpollConsts) (delay : Int) (p : Poller) (flags d : Nat)
    (hf : flags ≠ 0) :
    ((eventMode c flags = 114 ∨ eventMode c flags = 233) ↔
      flags &&& (c._EPOLLIN ||| c._EPOLLRDHUP ||| c._EPOLLHUP ||| c._EPOLLERR) ≠ 0) ∧
    ((eventMode c flags = 119 ∨ eventMode c flags = 233) ↔
      flags &&& (c._EPOLLOUT ||| c._EPOLLHUP ||| c._EPOLLERR) ≠ 0) ∧
    (eventMode c flags = 0 ∨ eventMode c flags = 114 ∨ eventMode c flags = 119 ∨
      eventMode c flags = 233) ∧
    (flags &&& c._EPOLLHUP ≠ 0 ∨ flags &&& c._EPOLLERR ≠ 0 → eventMode c flags = 233) ∧
    (netpollEvent c delay p ⟨flags, .pd d⟩).toRun =
      (if eventMode c flags = 0 then p.toRun else p.toRun ++ [(d, eventMode c flags)]) := by
  refine ⟨?_, ?_, ?_, ?_, ?_⟩
  · unfold eventMode; split_ifs <;> simp_all
  · unfold eventMode; split_ifs <;> simp_all
  · unfold eventMode; split_ifs <;> simp
  · intro h
    have hr : flags &&& (c._EPOLLIN ||| c._EPOLLRDHUP ||| c._EPOLLHUP ||| c._EPOLLERR) ≠ 0 := by
      rcases h with h | h
      · exact land_lor_left _ _ _ (land_lor_right _ _ _ h)
      · exact land_lor_right _ _ _ h
    have hw : flags &&& (c._EPOLLOUT ||| c._EPOLLHUP ||| c._EPOLLERR) ≠ 0 := by
      rcases h with h | h
      · exact land_lor_left _ _ _ (land_lor_right _ _ _ h)
      · exact land_lor_right _ _ _ h
    simp only [eventMode, if_pos hr, if_pos hw]; norm_num
  · simp only [netpollEvent, hf, if_false]
    split_ifs <;> simp_all

theorem eventMode_translation_witness :
    ((0x10 : Nat) ≠ 0) ∧
    ((0x10 &&& linuxConsts._EPOLLHUP ≠ 0 ∨ 0x10 &&& linuxConsts._EPOLLERR ≠ 0) →
      eventMode linuxConsts 0x10 = 233) :=
  ⟨by norm_num,
   (eventMode_translation linuxConsts 0
      ⟨3, 0, fun _ => false, [], 0, 0, 0, [], none⟩ 0x10 7 (by norm_num)).2.2.2.1⟩

/-- C10: when `netpoll` handles an event with a non-empty mode for the poll
descriptor `d`, it leaves `d.everr` true exactly when the flags are `_EPOLLERR` and
nothing else, whatever `d.everr` was before; no other descriptor changes. -/
theorem netpollEvent_everr (c : EpollConsts) (delay : Int) (p : Poller) (flags d : Nat)
    (hmode : eventMode c flags ≠ 0) :
    ((netpollEvent c delay p ⟨flags, .pd d⟩).everr d = true ↔ flags = c._EPOLLERR) ∧
    (flags ≠ c._EPOLLERR → (netpollEvent c delay p ⟨flags, .pd d⟩).everr d = false) ∧
    (∀ x, x ≠ d → (netpollEvent c delay p ⟨flags, .pd d⟩).everr x = p.everr x) := by
  have hf : flags ≠ 0 := by
    intro h0
    apply hmode
    simp [eventMode, h0]
  simp only [netpollEvent, hf, if_false, hmode, ne_eq, not_false_eq_true, if_true]
  refine ⟨?_, ?_, ?_⟩
  · simp
  · intro h; simp [h]
  · intro x hx; simp [Function.update, hx]

theorem netpollEvent_everr_witness :
    (eventMode linuxConsts 0x18 ≠ 0) ∧
    ((netpollEvent linuxConsts 0 ⟨3, 0, fun _ => true, [], 0, 0, 0, [], none⟩
        ⟨0x18, .pd 7⟩).everr 7 = true ↔ (0x18 : Nat) = linuxConsts._EPOLLERR) :=
  ⟨by decide,
   (netpollEvent_everr linuxConsts 0 ⟨3, 0, fun _ => true, [], 0, 0, 0, [], none⟩ 0x18 7
      (by decide)).1⟩

/-- C15, as the code has it: `netpollopen` registers the descriptor with the mask
`_EPOLLIN|_EPOLLOUT|_EPOLLRDHUP|_EPOLLET` and returns the negation of what `epollctl`
returns: 0 on success, and the error code `e` itself when `epollctl` reports `-e`. -/
theorem netpollopen_status (c : EpollConsts) (epollctl : CtlCall → Int) (epfd : Int)
    (fd pd : Nat) (e : Int) :
    (epollctl ⟨epfd, c._EPOLL_CTL_ADD, int32 fd,
        c._EPOLLIN ||| c._EPOLLOUT ||| c._EPOLLRDHUP ||| c._EPOLLET, .pd pd⟩ = 0 →
      netpollopen c epollctl epfd fd pd = 0) ∧
    (0 < e → e < 2147483648 →
      epollctl ⟨epfd, c._EPOLL_CTL_ADD, int32 fd,
        c._EPOLLIN ||| c._EPOLLOUT ||| c._EPOLLRDHUP ||| c._EPOLLET, .pd pd⟩ = -e →
      netpollopen c epollctl epfd fd pd = e) := by
  constructor
  · intro h; unfold netpollopen; rw [h]; unfold int32; norm_num
  · intro h1 h2 h; unfold netpollopen; rw [h]; unfold int32; omega

theorem netpollopen_status_witness :
    ((0 : Int) < 9 ∧ (9 : Int) < 2147483648) ∧
    netpollopen linuxConsts (fun _ => -9) 3 5 0 = 9 :=
  ⟨⟨by norm_num, by norm_num⟩,
   (netpollopen_status linuxConsts (fun _ => -9) 3 5 0 9).2 (by norm_num) (by norm_num) rfl⟩

/-- C15 as stated fails: when `epollctl` reports the error 9 as -9, `netpollopen`
returns 9, not -9. -/
theorem netpollopen_not_negated :
    netpollopen linuxConsts (fun _ => -9) 3 5 0 = 9 ∧
    netpollopen linuxConsts (fun _ => -9) 3 5 0 ≠ -9 := by
  decide

end GoRuntime

namespace GoRuntime

theorem netpollEvent_toRun (c : EpollConsts) (delay : Int) (p : Poller) (ev : epollevent) :
    (netpollEvent c delay p ev).toRun = p.toRun ++ (readyOf c ev).toList := by
  obtain ⟨f, d⟩ := ev
  cases d <;> simp only [netpollEvent, readyOf] <;> split_ifs <;> simp

theorem netpollEvent_fatal (c : EpollConsts) (delay : Int) (p : Poller) (ev : epollevent) :
    (netpollEvent c delay p ev).fatal =
      if badBreak c ev = true
      then some "runtime: netpoll: break fd ready for something unexpected" else p.fatal := by
  obtain ⟨f, d⟩ := ev
  cases d <;> simp only [netpollEvent, badBreak] <;> split_ifs <;> simp_all

theorem netpollEvent_frame (c : EpollConsts) (delay : Int) (p : Poller) (ev : epollevent) :
    (netpollEvent c delay p ev).waitCalls = p.waitCalls ∧
    (netpollEvent c delay p ev).epfd = p.epfd ∧
    (netpollEvent c delay p ev).breakWrites = p.breakWrites ∧
    (netpollEvent c delay p ev).breakPosted = p.breakPosted ∧
    p.breakReads ≤ (netpollEvent c delay p ev).breakReads ∧
    ((netpollEvent c delay p ev).netpollWakeSig = p.netpollWakeSig ∨
      (netpollEvent c delay p ev).netpollWakeSig = 0) ∧
    (delay = 0 → (netpollEvent c delay p ev).netpollWakeSig = p.netpollWakeSig ∧
      (netpollEvent c delay p ev).breakReads = p.breakReads) := by
  obtain ⟨f, d⟩ := ev
  cases d <;> simp only [netpollEvent] <;> split_ifs <;> simp_all

theorem netpollEvents_frame (c : EpollConsts) (delay : Int) (evs : List epollevent)
    (p : Poller) :
    (netpollEvents c delay evs p).waitCalls = p.waitCalls ∧
    (netpollEvents c delay evs p).epfd = p.epfd ∧
    (netpollEvents c delay evs p).breakWrites = p.breakWrites ∧
    (netpollEvents c delay evs p).breakPosted = p.breakPosted ∧
    p.breakReads ≤ (netpollEvents c delay evs p).breakReads ∧
    ((netpollEvents c delay evs p).netpollWakeSig = p.netpollWakeSig ∨
      (netpollEvents c delay evs p).netpollWakeSig = 0) ∧
    (delay = 0 → (netpollEvents c delay evs p).netpollWakeSig = p.netpollWakeSig ∧
      (netpollEvents c delay evs p).breakReads = p.breakReads) := by
  induction evs generalizing p with
  | nil => simp [netpollEvents]
  | cons ev rest ih =>
    have h1 := netpollEvent_frame c delay p ev
    simp only [netpollEvents]
    split_ifs
    · exact h1
    · have h2 := ih (netpollEvent c delay p ev)
      refine ⟨by rw [h2.1, h1.1], by rw [h2.2.1, h1.2.1], by rw [h2.2.2.1, h1.2.2.1],
        by rw [h2.2.2.2.1, h1.2.2.2.1], le_trans h1.2.2.2.2.1 h2.2.2.2.2.1, ?_, ?_⟩
      · rcases h2.2.2.2.2.2.1 with h | h
        · rw [h]; exact h1.2.2.2.2.2.1
        · exact Or.inr h
      · intro hd
        have a := h1.2.2.2.2.2.2 hd
        have b := h2.2.2.2.2.2.2 hd
        exact ⟨by rw [b.1, a.1], by rw [b.2, a.2]⟩

theorem netpollEvents_toRun (c : EpollConsts) (delay : Int) (evs : List epollevent)
    (p : Poller) (hp : p.fatal = none) :
    (netpollEvents c delay evs p).toRun =
      p.toRun ++ (evs.takeWhile (fun ev => !badBreak c ev)).filterMap (readyOf c) := by
  induction evs generalizing p with
  | nil => simp [netpollEvents]
  | cons ev rest ih =>
    have ht := netpollEvent_toRun c delay p ev
    have hf := netpollEvent_fatal c delay p ev
    simp only [netpollEvents]
    by_cases hb : badBreak c ev = true
    · rw [if_pos hb] at hf
      have hr : readyOf c ev = none := by
        obtain ⟨f, d⟩ := ev
        simp only [badBreak, Bool.and_eq_true, decide_eq_true_eq] at hb
        simp [readyOf, hb.1.2]
      rw [if_pos (by simp [hf]), ht, hr]
      simp [List.takeWhile_cons, hb]
    · rw [if_neg hb, hp] at hf
      rw [if_neg (by simp [hf]), ih _ hf, ht]
      simp only [Bool.not_eq_true] at hb
      rw [List.takeWhile_cons_of_pos (by simp [hb])]
      cases hr : readyOf c ev <;> simp [List.filterMap_cons, hr]

theorem netpollEvents_fatal (c : EpollConsts) (delay : Int) (evs : List epollevent)
    (p : Poller) (hp : p.fatal = none) :
    (netpollEvents c delay evs p).fatal =
      if evs.any (badBreak c) = true
      then some "runtime: netpoll: break fd ready for something unexpected" else none := by
  induction evs generalizing p with
  | nil => simp [netpollEvents, hp]
  | cons ev rest ih =>
    have hf := netpollEvent_fatal c delay p ev
    simp only [netpollEvents]
    by_cases hb : badBreak c ev = true
    · rw [if_pos hb] at hf
      rw [if_pos (by simp [hf]), hf]
      simp [hb]
    · rw [if_neg hb, hp] at hf
      rw [if_neg (by simp [hf]), ih _ hf]
      simp only [Bool.not_eq_true] at hb
      simp [hb]

theorem netpoll_one_answer (c : EpollConsts) (delay : Int) (a : WaitAnswer)
    (rest : List WaitAnswer) (p : Poller) (hepfd : p.epfd ≠ -1) (hn : 0 ≤ a.n) :
    netpoll c delay (a :: rest) p = some (netpollEvents c delay (a.events.take a.n.toNat)
      { p with toRun := [], waitCalls := p.waitCalls ++ [waitms delay] }) := by
  simp only [netpoll, if_neg hepfd, netpollRetry, if_neg (not_lt.2 hn)]

/-- C9, as the code has it: the pairs that `netpoll` hands to `netpollready` are, in
order, those of the events before the first event on the break pipe whose flags are
not exactly `_EPOLLIN` (there `netpoll` throws); without such an event they are
those of all the events that have flags, are not on the break pipe and have a
non-empty mode. -/
theorem netpoll_ready_list (c : EpollConsts) (delay : Int) (evs : List epollevent)
    (rest : List WaitAnswer) (p : Poller) (hepfd : p.epfd ≠ -1) (hp : p.fatal = none) :
    ∃ p1, netpoll c delay (⟨evs.length, evs⟩ :: rest) p = some p1 ∧
      p1.toRun = (evs.takeWhile (fun ev => !badBreak c ev)).filterMap (readyOf c) ∧
      ((∀ ev ∈ evs, badBreak c ev = false) → p1.toRun = evs.filterMap (readyOf c)) := by
  refine ⟨_, netpoll_one_answer c delay ⟨evs.length, evs⟩ rest p hepfd (by simp), ?_⟩
  have h := netpollEvents_toRun c delay evs
    { p with toRun := [], waitCalls := p.waitCalls ++ [waitms delay] } hp
  simp only [Int.toNat_ofNat, List.take_length, List.nil_append] at h ⊢
  refine ⟨h, fun hall => ?_⟩
  rw [h]
  congr 1
  rw [List.takeWhile_eq_self_iff]
  intro ev hev
  simp [hall ev hev]

theorem netpoll_ready_list_witness :
    ((3 : Int) ≠ -1 ∧ (none : Option String) = none) ∧
    ∃ p1, netpoll linuxConsts 0 (⟨([⟨1, .pd 7⟩] : List epollevent).length, [⟨1, .pd 7⟩]⟩ :: [])
        ⟨3, 0, fun _ => false, [], 0, 0, 0, [], none⟩ = some p1 ∧
      p1.toRun = (([⟨1, .pd 7⟩] : List epollevent).takeWhile
        (fun ev => !badBreak linuxConsts ev)).filterMap (readyOf linuxConsts) ∧
      ((∀ ev ∈ ([⟨1, .pd 7⟩] : List epollevent), badBreak linuxConsts ev = false) →
        p1.toRun = ([⟨1, .pd 7⟩] : List epollevent).filterMap (readyOf linuxConsts)) :=
  ⟨⟨by norm_num, rfl⟩,
   netpoll_ready_list linuxConsts 0 [⟨1, .pd 7⟩] []
     ⟨3, 0, fun _ => false, [], 0, 0, 0, [], none⟩ (by norm_num) rfl⟩

/-- C9 as stated fails: when the first of two events is on the break pipe with the
flags `_EPOLLOUT`, `netpoll` throws there and hands nothing to `netpollready`,
though the second event is readable. -/
theorem netpoll_ready_list_fails :
    Option.map Poller.toRun
      (netpoll linuxConsts (-1) [⟨2, [⟨4, .breakRd⟩, ⟨1, .pd 7⟩]⟩]
        ⟨3, 0, fun _ => false, [], 0, 0, 0, [], none⟩) = some [] ∧
    ([⟨4, .breakRd⟩, ⟨1, .pd 7⟩] : List epollevent).filterMap (readyOf linuxConsts)
      = [(7, 114)] := by
  decide

end GoRuntime

namespace GoRuntime

theorem netpollRetry_frame (c : EpollConsts) (delay : Int) (answers : List WaitAnswer)
    (p p1 : Poller) (h : netpollRetry c delay answers p = some p1) :
    (delay = 0 → p1.netpollWakeSig = p.netpollWakeSig ∧ p1.breakReads = p.breakReads) ∧
    ∃ k, p1.waitCalls = p.waitCalls ++ List.replicate (k + 1) (waitms delay) := by
  induction answers generalizing p with
  | nil => simp [netpollRetry] at h
  | cons a rest ih =>
    simp only [netpollRetry] at h
    split_ifs at h with h1 h2 h3
    · simp only [Option.some.injEq] at h
      subst h
      exact ⟨fun _ => ⟨rfl, rfl⟩, 0, rfl⟩
    · simp only [Option.some.injEq] at h
      subst h
      exact ⟨fun _ => ⟨rfl, rfl⟩, 0, rfl⟩
    · obtain ⟨ha, k, hk⟩ := ih _ h
      refine ⟨ha, k + 1, ?_⟩
      rw [hk]
      simp [List.replicate_succ]
    · simp only [Option.some.injEq] at h
      subst h
      have hf := netpollEvents_frame c delay (a.events.take a.n.toNat)
        { p with waitCalls := p.waitCalls ++ [waitms delay] }
      exact ⟨fun hd => hf.2.2.2.2.2.2 hd, 0, by rw [hf.1]; rfl⟩

/-- C11: a non-blocking `netpoll(0)` never changes `netpollWakeSig` and never reads
the break pipe, whatever events it is given; a `netpoll(delay)` with `delay != 0`
that handles an event on the break pipe with the flags `_EPOLLIN` reads the pipe
and leaves `netpollWakeSig` at 0; an event on the break pipe never adds to the
ready list. -/
theorem wake_gate_honest (c : EpollConsts) (hin : c._EPOLLIN ≠ 0) :
    (∀ evs p, (netpollEvents c 0 evs p).netpollWakeSig = p.netpollWakeSig ∧
      (netpollEvents c 0 evs p).breakReads = p.breakReads) ∧
    (∀ answers p p1, netpoll c 0 answers p = some p1 →
      p1.netpollWakeSig = p.netpollWakeSig ∧ p1.breakReads = p.breakReads) ∧
    (∀ delay p, delay ≠ 0 →
      (netpollEvent c delay p ⟨c._EPOLLIN, .breakRd⟩).netpollWakeSig = 0 ∧
      (netpollEvent c delay p ⟨c._EPOLLIN, .breakRd⟩).breakReads = p.breakReads + 1 ∧
      (netpollEvent c delay p ⟨c._EPOLLIN, .breakRd⟩).fatal = p.fatal) ∧
    (∀ delay evs p, delay ≠ 0 → p.fatal = none → ⟨c._EPOLLIN, .breakRd⟩ ∈ evs →
      (netpollEvents c delay evs p).fatal = none →
      (netpollEvents c delay evs p).netpollWakeSig = 0 ∧
      p.breakReads < (netpollEvents c delay evs p).breakReads) ∧
    (∀ delay p flags, (netpollEvent c delay p ⟨flags, .breakRd⟩).toRun = p.toRun) := by
  refine ⟨fun evs p => (netpollEvents_frame c 0 evs p).2.2.2.2.2.2 rfl, ?_, ?_, ?_, ?_⟩
  · intro answers p p1 h
    simp only [netpoll] at h
    split_ifs at h
    · simp only [Option.some.injEq] at h
      subst h
      exact ⟨rfl, rfl⟩
    · exact (netpollRetry_frame c 0 answers _ p1 h).1 rfl
  · intro delay p hd
    simp [netpollEvent, hin, hd]
  · intro delay evs p hd
    induction evs generalizing p with
    | nil => intro _ hmem; simp at hmem
    | cons ev rest ih =>
      intro hp hmem hnf
      have hfat := netpollEvent_fatal c delay p ev
      have hfr := netpollEvent_frame c delay p ev
      simp only [netpollEvents] at hnf ⊢
      by_cases hs : (netpollEvent c delay p ev).fatal.isSome = true
      · rw [if_pos hs] at hnf
        rw [hnf] at hs
        simp at hs
      · rw [if_neg hs] at hnf ⊢
        have hp1 : (netpollEvent c delay p ev).fatal = none := by
          simpa using hs
        rcases List.mem_cons.1 hmem with heq | hin2
        · subst heq
          have h0 : (netpollEvent c delay p ⟨c._EPOLLIN, .breakRd⟩).netpollWakeSig = 0 ∧
              (netpollEvent c delay p ⟨c._EPOLLIN, .breakRd⟩).breakReads
                = p.breakReads + 1 := by
            simp [netpollEvent, hin, hd]
          have hfr2 := netpollEvents_frame c delay rest
            (netpollEvent c delay p ⟨c._EPOLLIN, .breakRd⟩)
          refine ⟨?_, by omega⟩
          rcases hfr2.2.2.2.2.2.1 with h | h
          · rw [h]; exact h0.1
          · exact h
        · have := ih (netpollEvent c delay p ev) hp1 hin2 hnf
          exact ⟨this.1, by omega⟩
  · intro delay p flags
    rw [netpollEvent_toRun]
    simp [readyOf]

theorem wake_gate_honest_witness :
    (linuxConsts._EPOLLIN ≠ 0) ∧
    (∀ evs p, (netpollEvents linuxConsts 0 evs p).netpollWakeSig = p.netpollWakeSig ∧
      (netpollEvents linuxConsts 0 evs p).breakReads = p.breakReads) :=
  ⟨by decide, (wake_gate_honest linuxConsts (by decide)).1⟩

theorem netpollBreakLoop_spec (c : EpollConsts) (writes : List Int) (p p1 : Poller)
    (rest : List Int) (h : netpollBreakLoop c writes p = some (p1, rest)) :
    p1.netpollWakeSig = p.netpollWakeSig ∧ p.breakPosted ≤ p1.breakPosted ∧
    p1.breakPosted ≤ p.breakPosted + 1 ∧ p.breakWrites < p1.breakWrites ∧
    (p1.fatal = p.fatal ∨ p1.fatal = some "runtime: netpollBreak write failed") := by
  induction writes generalizing p with
  | nil => simp [netpollBreakLoop] at h
  | cons n ws ih =>
    simp only [netpollBreakLoop] at h
    split_ifs at h with h1 h2 h3
    · simp only [Option.some.injEq, Prod.mk.injEq] at h
      obtain ⟨rfl, _⟩ := h
      simp
    · have := ih _ h
      simp only [if_neg h1] at this
      exact ⟨this.1, this.2.1, this.2.2.1, by omega, this.2.2.2.2⟩
    · simp only [Option.some.injEq, Prod.mk.injEq] at h
      obtain ⟨rfl, _⟩ := h
      simp
    · simp only [Option.some.injEq, Prod.mk.injEq] at h
      obtain ⟨rfl, _⟩ := h
      simp

theorem netpollBreaks_pending (c : EpollConsts) (k : Nat) (writes : List Int) (p : Poller)
    (h : p.netpollWakeSig ≠ 0) : netpollBreaks c k writes p = some (p, writes) := by
  induction k with
  | zero => rfl
  | succ k ih =>
    simp only [netpollBreaks, netpollBreak, if_neg h]
    split_ifs
    · rfl
    · exact ih

theorem netpollBreakLoop_eintr (c : EpollConsts) (j : Nat) (n : Int) (ws : List Int)
    (p : Poller) (he : -c._EINTR ≠ 1) (hn : n = 1 ∨ n = -c._EAGAIN) (hne : n ≠ -c._EINTR) :
    ∃ p1, netpollBreakLoop c (List.replicate j (-c._EINTR) ++ n :: ws) p = some (p1, ws) ∧
      p1.breakWrites = p.breakWrites + j + 1 ∧ p1.fatal = p.fatal ∧
      p1.breakPosted = (if n = 1 then p.breakPosted + 1 else p.breakPosted) := by
  induction j generalizing p with
  | zero =>
    refine ⟨{ p with breakWrites := p.breakWrites + 1,
                     breakPosted := if n = 1 then p.breakPosted + 1 else p.breakPosted },
      ?_, rfl, rfl, rfl⟩
    simp only [List.replicate_zero, List.nil_append, netpollBreakLoop]
    by_cases h1 : n = 1
    · rw [if_pos h1]
    · have h2 : n = -c._EAGAIN := by
        rcases hn with hn | hn
        · exact absurd hn h1
        · exact hn
      rw [if_neg h1, if_neg hne, if_pos h2]
  | succ j ih =>
    obtain ⟨p1, h1, h2, h3, h4⟩ := ih
      { p with breakWrites := p.breakWrites + 1,
               breakPosted := if -c._EINTR = 1 then p.breakPosted + 1 else p.breakPosted }
    refine ⟨p1, ?_, ?_, ?_, ?_⟩
    · simp only [List.replicate_succ, List.cons_append, netpollBreakLoop, if_neg he, if_true]
      simpa [he] using h1
    · rw [h2]; simp; omega
    · rw [h3]
    · rw [h4]; simp [he]

/-- C12: with `netpollWakeSig` already 1, `netpollBreak` writes nothing and leaves it
at 1; with `netpollWakeSig` 0 it sets it to 1 and posts at most one byte: it writes
again only after `EINTR`, and returns without a throw after `EAGAIN`. So a run of
calls of `netpollBreak` posts at most one byte and leaves `netpollWakeSig` at 1. -/
theorem netpollBreak_idempotent (c : EpollConsts) (he : -c._EINTR ≠ 1) :
    (∀ writes p, p.netpollWakeSig = 1 → netpollBreak c writes p = some (p, writes)) ∧
    (∀ writes p p1 rest, p.netpollWakeSig = 0 → netpollBreak c writes p = some (p1, rest) →
      p1.netpollWakeSig = 1 ∧ p1.breakPosted ≤ p.breakPosted + 1) ∧
    (∀ j n ws p, p.netpollWakeSig = 0 → (n = 1 ∨ n = -c._EAGAIN) → n ≠ -c._EINTR →
      ∃ p1, netpollBreak c (List.replicate j (-c._EINTR) ++ n :: ws) p = some (p1, ws) ∧
        p1.netpollWakeSig = 1 ∧ p1.breakWrites = p.breakWrites + j + 1 ∧
        p1.fatal = p.fatal ∧
        p1.breakPosted = (if n = 1 then p.breakPosted + 1 else p.breakPosted)) ∧
    (∀ k writes p p1 rest, (p.netpollWakeSig = 0 ∨ p.netpollWakeSig = 1) →
      netpollBreaks c (k + 1) writes p = some (p1, rest) →
      p1.netpollWakeSig = 1 ∧ p1.breakPosted ≤ p.breakPosted + 1) := by
  refine ⟨?_, ?_, ?_, ?_⟩
  · intro writes p h
    simp [netpollBreak, h]
  · intro writes p p1 rest h0 h
    simp only [netpollBreak, if_pos h0] at h
    have := netpollBreakLoop_spec c writes _ p1 rest h
    exact ⟨this.1, this.2.2.1⟩
  · intro j n ws p h0 hn hne
    obtain ⟨p1, h1, h2, h3, h4⟩ :=
      netpollBreakLoop_eintr c j n ws { p with netpollWakeSig := 1 } he hn hne
    refine ⟨p1, by simp only [netpollBreak, if_pos h0]; exact h1, ?_, h2, h3, h4⟩
    exact (netpollBreakLoop_spec c _ _ p1 ws h1).1
  · intro k writes p p1 rest hg h
    rcases hg with h0 | h1
    · simp only [netpollBreaks, netpollBreak, if_pos h0] at h
      cases hl : netpollBreakLoop c writes { p with netpollWakeSig := 1 } with
      | none => simp [hl] at h
      | some r =>
        obtain ⟨q, ws⟩ := r
        have hs := netpollBreakLoop_spec c writes _ q ws hl
        simp only [hl] at h
        split_ifs at h
        · simp only [Option.some.injEq, Prod.mk.injEq] at h
          obtain ⟨rfl, _⟩ := h
          exact ⟨hs.1, hs.2.2.1⟩
        · rw [netpollBreaks_pending c k ws q (by rw [hs.1]; simp)] at h
          simp only [Option.some.injEq, Prod.mk.injEq] at h
          obtain ⟨rfl, _⟩ := h
          exact ⟨hs.1, hs.2.2.1⟩
    · rw [netpollBreaks_pending c (k + 1) writes p (by rw [h1]; simp)] at h
      simp only [Option.some.injEq, Prod.mk.injEq] at h
      obtain ⟨rfl, _⟩ := h
      exact ⟨h1, by omega⟩

theorem netpollBreak_idempotent_witness :
    (-linuxConsts._EINTR ≠ 1) ∧
    (∀ writes p, p.netpollWakeSig = 1 →
      netpollBreak linuxConsts writes p = some (p, writes)) :=
  ⟨by decide, (netpollBreak_idempotent linuxConsts (by decide)).1⟩

end GoRuntime

namespace GoRuntime

theorem waitms_pos_iff (delay : Int) : 0 < waitms delay ↔ 0 < delay := by
  by_cases h : 0 ≤ delay
  · rw [waitms_val delay h]
    split_ifs <;> omega
  · rw [waitms, if_pos (by omega)]
    omega

/-- C13: when `epollwait` returns `-EINTR`, a `netpoll` with a positive delay returns
at once with an empty ready list, no descriptor notified and the wake gate as it
was; a `netpoll` with a delay of 0 or less calls `epollwait` again with the same
timeout; every other negative return throws "runtime: netpoll failed". -/
theorem netpoll_interrupted (c : EpollConsts) (delay : Int) (a : WaitAnswer)
    (rest : List WaitAnswer) (p : Poller) (hepfd : p.epfd ≠ -1) (hE : 0 < c._EINTR) :
    (a.n = -c._EINTR → 0 < delay →
      netpoll c delay (a :: rest) p
        = some { p with toRun := [], waitCalls := p.waitCalls ++ [waitms delay] }) ∧
    (a.n = -c._EINTR → delay ≤ 0 →
      netpoll c delay (a :: rest) p
        = netpollRetry c delay rest
            { p with toRun := [], waitCalls := p.waitCalls ++ [waitms delay] }) ∧
    (a.n = -c._EINTR → delay ≤ 0 → ∀ p1, netpoll c delay (a :: rest) p = some p1 →
      ∃ k, p1.waitCalls
        = p.waitCalls ++ waitms delay :: List.replicate (k + 1) (waitms delay)) ∧
    (a.n < 0 → a.n ≠ -c._EINTR →
      netpoll c delay (a :: rest) p
        = some { p with toRun := [], waitCalls := p.waitCalls ++ [waitms delay],
                        fatal := some "runtime: netpoll failed" }) := by
  have hretry : ∀ (_ : a.n = -c._EINTR) (_ : delay ≤ 0),
      netpoll c delay (a :: rest) p
        = netpollRetry c delay rest
            { p with toRun := [], waitCalls := p.waitCalls ++ [waitms delay] } := by
    intro hn hd
    have hw : ¬ waitms delay > 0 := by
      rw [gt_iff_lt, waitms_pos_iff]; omega
    simp only [netpoll, if_neg hepfd, netpollRetry]
    rw [if_pos (by omega), if_neg (by simp [hn]), if_neg hw]
  refine ⟨?_, hretry, ?_, ?_⟩
  · intro hn hd
    have hw : waitms delay > 0 := by
      rw [gt_iff_lt, waitms_pos_iff]; exact hd
    simp only [netpoll, if_neg hepfd, netpollRetry]
    rw [if_pos (by omega), if_neg (by simp [hn]), if_pos hw]
  · intro hn hd p1 h
    rw [hretry hn hd] at h
    obtain ⟨k, hk⟩ := (netpollRetry_frame c delay rest _ p1 h).2
    exact ⟨k, by rw [hk]; simp⟩
  · intro hn hne
    simp only [netpoll, if_neg hepfd, netpollRetry]
    rw [if_pos hn, if_pos hne]

theorem netpoll_interrupted_witness :
    ((3 : Int) ≠ -1 ∧ 0 < linuxConsts._EINTR) ∧
    (((⟨-4, []⟩ : WaitAnswer).n = -linuxConsts._EINTR → (0 : Int) < 5 →
      netpoll linuxConsts 5 (⟨-4, []⟩ :: []) ⟨3, 0, fun _ => false, [], 0, 0, 0, [], none⟩
        = some { (⟨3, 0, fun _ => false, [], 0, 0, 0, [], none⟩ : Poller) with
                 toRun := [], waitCalls := [] ++ [waitms 5] })) :=
  ⟨⟨by norm_num, by decide⟩,
   (netpoll_interrupted linuxConsts 5 ⟨-4, []⟩ []
      ⟨3, 0, fun _ => false, [], 0, 0, 0, [], none⟩ (by norm_num) (by decide)).1⟩

/-- C14: `netpoll` throws "runtime: netpoll: break fd ready for something unexpected"
exactly when one of the events it is given is on the break pipe and has flags (so
that the loop does not skip it) that are not exactly `_EPOLLIN`; an event on the
break pipe with the flags `_EPOLLIN` never throws. -/
theorem break_fd_unexpected (c : EpollConsts) (delay : Int) (evs : List epollevent)
    (rest : List WaitAnswer) (p : Poller) (hepfd : p.epfd ≠ -1) (hp : p.fatal = none) :
    ((netpollEvents c delay evs p).fatal
        = some "runtime: netpoll: break fd ready for something unexpected" ↔
      ∃ ev ∈ evs, ev.data = .breakRd ∧ ev.events ≠ 0 ∧ ev.events ≠ c._EPOLLIN) ∧
    (∃ p1, netpoll c delay (⟨evs.length, evs⟩ :: rest) p = some p1 ∧
      (p1.fatal = some "runtime: netpoll: break fd ready for something unexpected" ↔
        ∃ ev ∈ evs, ev.data = .breakRd ∧ ev.events ≠ 0 ∧ ev.events ≠ c._EPOLLIN)) ∧
    (∀ q, (netpollEvent c delay q ⟨c._EPOLLIN, .breakRd⟩).fatal = q.fatal) := by
  have key : ∀ q : Poller, q.fatal = none →
      ((netpollEvents c delay evs q).fatal
        = some "runtime: netpoll: break fd ready for something unexpected" ↔
      ∃ ev ∈ evs, ev.data = .breakRd ∧ ev.events ≠ 0 ∧ ev.events ≠ c._EPOLLIN) := by
    intro q hq
    rw [netpollEvents_fatal c delay evs q hq]
    by_cases h : evs.any (badBreak c) = true
    · rw [if_pos h]
      simp only [true_iff]
      obtain ⟨ev, hev, hb⟩ := List.any_eq_true.1 h
      simp only [badBreak, Bool.and_eq_true, decide_eq_true_eq] at hb
      exact ⟨ev, hev, hb.1.2, hb.1.1, hb.2⟩
    · rw [if_neg h]
      constructor
      · intro hc; cases hc
      · rintro ⟨ev, hev, h1, h2, h3⟩
        exact absurd (List.any_eq_true.2 ⟨ev, hev, by simp [badBreak, h1, h2, h3]⟩) h
  refine ⟨key p hp, ?_, ?_⟩
  · have e : (⟨(evs.length : Int), evs⟩ : WaitAnswer).events.take
        (⟨(evs.length : Int), evs⟩ : WaitAnswer).n.toNat = evs := by simp
    have h1 := netpoll_one_answer c delay ⟨evs.length, evs⟩ rest p hepfd (by simp)
    rw [e] at h1
    exact ⟨_, h1, key _ hp⟩
  · intro q
    rw [netpollEvent_fatal]
    simp [badBreak]

theorem break_fd_unexpected_witness :
    ((3 : Int) ≠ -1 ∧ (none : Option String) = none) ∧
    ((netpollEvents linuxConsts 0 [⟨4, .breakRd⟩]
        ⟨3, 0, fun _ => false, [], 0, 0, 0, [], none⟩).fatal
        = some "runtime: netpoll: break fd ready for something unexpected" ↔
      ∃ ev ∈ ([⟨4, .breakRd⟩] : List epollevent),
        ev.data = .breakRd ∧ ev.events ≠ 0 ∧ ev.events ≠ linuxConsts._EPOLLIN) :=
  ⟨⟨by norm_num, rfl⟩,
   (break_fd_unexpected linuxConsts 0 [⟨4, .breakRd⟩] []
      ⟨3, 0, fun _ => false, [], 0, 0, 0, [], none⟩ (by norm_num) rfl).1⟩

/-! ## Claims on `sys_x86.go` -/

theorem uintptrSub_twice (P a b : Nat) :
    uintptrSub P (uintptrSub P a b) b = uintptrSub P a (2 * b) := by
  have hM : (0 : Int) < (2 : Int) ^ (8 * P) := by positivity
  unfold uintptrSub
  rw [Int.toNat_of_nonneg (Int.emod_nonneg _ (ne_of_gt hM))]
  congr 1
  rw [Int.sub_emod, Int.emod_emod, ← Int.sub_emod]
  congr 1
  push_cast
  ring

/-- C20: `gostartcall` leaves the saved context as after a call of `fn`. When
`RegSize <= PtrSize`, `buf.sp` is the old `sp` less `PtrSize`, the word at the new
`buf.sp` is the old `buf.pc`, `buf.pc` is `fn`, `buf.ctxt` is `ctxt`, and no other
field of `buf` and no other word of the memory changes. When `RegSize > PtrSize` a
zero word is pushed first, and `buf.sp` is the old `sp` less twice `PtrSize`. -/
theorem gostartcall_spec {R : Type} (PtrSize RegSize : Nat) (buf : gobuf R)
    (mem : Nat → Nat) (fn ctxt : Nat) :
    (RegSize ≤ PtrSize →
      (gostartcall PtrSize RegSize buf mem fn ctxt).1.sp = uintptrSub PtrSize buf.sp PtrSize ∧
      (gostartcall PtrSize RegSize buf mem fn ctxt).2
          (gostartcall PtrSize RegSize buf mem fn ctxt).1.sp = buf.pc ∧
      (gostartcall PtrSize RegSize buf mem fn ctxt).1.pc = fn ∧
      (gostartcall PtrSize RegSize buf mem fn ctxt).1.ctxt = ctxt ∧
      (gostartcall PtrSize RegSize buf mem fn ctxt).1.rest = buf.rest ∧
      ∀ x, x ≠ uintptrSub PtrSize buf.sp PtrSize →
        (gostartcall PtrSize RegSize buf mem fn ctxt).2 x = mem x) ∧
    (PtrSize < RegSize →
      (gostartcall PtrSize RegSize buf mem fn ctxt).1.sp
        = uintptrSub PtrSize buf.sp (2 * PtrSize) ∧
      (gostartcall PtrSize RegSize buf mem fn ctxt).2
          (gostartcall PtrSize RegSize buf mem fn ctxt).1.sp = buf.pc ∧
      (gostartcall PtrSize RegSize buf mem fn ctxt).1.pc = fn ∧
      (gostartcall PtrSize RegSize buf mem fn ctxt).1.ctxt = ctxt ∧
      (gostartcall PtrSize RegSize buf mem fn ctxt).1.rest = buf.rest ∧
      (uintptrSub PtrSize buf.sp PtrSize ≠ uintptrSub PtrSize buf.sp (2 * PtrSize) →
        (gostartcall PtrSize RegSize buf mem fn ctxt).2 (uintptrSub PtrSize buf.sp PtrSize)
          = 0) ∧
      ∀ x, x ≠ uintptrSub PtrSize buf.sp (2 * PtrSize) →
        x ≠ uintptrSub PtrSize buf.sp PtrSize →
        (gostartcall PtrSize RegSize buf mem fn ctxt).2 x = mem x) := by
  constructor
  · intro h
    have hn : ¬ RegSize > PtrSize := by omega
    have e : gostartcall PtrSize RegSize buf mem fn ctxt
        = ({ buf with sp := uintptrSub PtrSize buf.sp PtrSize, pc := fn, ctxt := ctxt },
           Function.update mem (uintptrSub PtrSize buf.sp PtrSize) buf.pc) := by
      simp only [gostartcall, if_neg hn]
    rw [e]
    exact ⟨rfl, by simp, rfl, rfl, rfl, fun x hx => by simp [Function.update, hx]⟩
  · intro h
    have hp : RegSize > PtrSize := h
    have e : gostartcall PtrSize RegSize buf mem fn ctxt
        = ({ buf with sp := uintptrSub PtrSize (uintptrSub PtrSize buf.sp PtrSize) PtrSize,
                      pc := fn, ctxt := ctxt },
           Function.update (Function.update mem (uintptrSub PtrSize buf.sp PtrSize) 0)
             (uintptrSub PtrSize (uintptrSub PtrSize buf.sp PtrSize) PtrSize) buf.pc) := by
      simp only [gostartcall, if_pos hp]
    rw [e, uintptrSub_twice]
    exact ⟨rfl, by simp, rfl, rfl, rfl, fun hx => by simp [Function.update, hx],
      fun x hx1 hx2 => by simp [Function.update, hx1, hx2]⟩

theorem gostartcall_spec_witness :
    ((8 : Nat) ≤ 8) ∧
    (gostartcall 8 8 (⟨4096, 77, 0, ()⟩ : gobuf Unit) (fun _ => 0) 500 9).1.sp
      = uintptrSub 8 4096 8 :=
  ⟨le_refl 8,
   ((gostartcall_spec 8 8 (⟨4096, 77, 0, ()⟩ : gobuf Unit) (fun _ => 0) 500 9).1
      (le_refl 8)).1⟩

end GoRuntime

namespace GoSync

/-! ## Lemmas on the steps of `lockSlow` and `unlockSlow` -/

theorem waiters_signed (w : Nat) :
    waiters w = if w / 8 < 268435456 then ((w / 8 : Nat) : Int)
      else ((w / 8 : Nat) : Int) - 536870912 := by
  rw [waiters_eq]
  split <;> split <;> omega

theorem lockSlowNewPre_spec (w : Nat) (st : Bool) (hw : w < 4294967296) :
    lockSlowNewPre w st < 4294967296 ∧
    lockSlowNewPre w st % 2 = (if w / 4 % 2 = 0 then 1 else w % 2) ∧
    lockSlowNewPre w st / 2 % 2 = w / 2 % 2 ∧
    lockSlowNewPre w st / 4 % 2 = (if st = true ∧ w % 2 = 1 then 1 else w / 4 % 2) ∧
    lockSlowNewPre w st / 8 =
      (if w % 2 = 1 ∨ w / 4 % 2 = 1 then (w / 8 + 1) % 536870912 else w / 8) := by
  have h1 : w ||| 1 < 4294967296 := by rw [or_1]; omega
  have hA := add32_cases (w ||| 1) 8 h1 (by norm_num)
  have hB := add32_cases w 8 hw (by norm_num)
  rw [or_1] at hA
  rcases Nat.mod_two_eq_zero_or_one w with hL | hL <;>
  rcases Nat.mod_two_eq_zero_or_one (w / 4) with hS | hS <;>
  cases st <;>
  simp [lockSlowNewPre, mutexLocked_val, mutexStarving_val, mutexWaiterShift_val,
    lor_1_4, shl_1_3, and_5, and_4, and_1, hL, hS] <;>
  simp only [or_1, or_4] at * <;>
  omega

theorem lockSlowNew_fields (w : Nat) (st aw : Bool) (hw : w < 4294967296) :
    lockSlowNew w st aw < 4294967296 ∧
    lockSlowNew w st aw % 2 = (if w / 4 % 2 = 0 then 1 else w % 2) ∧
    lockSlowNew w st aw / 2 % 2 = (if aw = true then 0 else w / 2 % 2) ∧
    lockSlowNew w st aw / 4 % 2 = (if st = true ∧ w % 2 = 1 then 1 else w / 4 % 2) ∧
    lockSlowNew w st aw / 8 =
      (if w % 2 = 1 ∨ w / 4 % 2 = 1 then (w / 8 + 1) % 536870912 else w / 8) := by
  obtain ⟨p1, p2, p3, p4, p5⟩ := lockSlowNewPre_spec w st hw
  cases aw
  · simp only [lockSlowNew, Bool.false_eq_true, if_false]
    exact ⟨p1, p2, p3, p4, p5⟩
  · simp only [lockSlowNew, if_true, mutexWoken_val]
    rw [andNot32_2 _ p1]
    generalize lockSlowNewPre w st = r at *
    refine ⟨by omega, ?_, by omega, ?_, ?_⟩
    · rw [← p2]; omega
    · rw [← p4]; omega
    · rw [← p5]; omega

theorem lockSlowThrows_iff (w : Nat) (st aw : Bool) (hw : w < 4294967296) :
    lockSlowThrows w st aw = true ↔ aw = true ∧ w / 2 % 2 = 0 := by
  obtain ⟨_, _, p3, _, _⟩ := lockSlowNewPre_spec w st hw
  simp only [lockSlowThrows, mutexWoken_val, and_2, Bool.and_eq_true, beq_iff_eq, p3]
  constructor
  · rintro ⟨h1, h2⟩; exact ⟨h1, by omega⟩
  · rintro ⟨h1, h2⟩; exact ⟨h1, by omega⟩

theorem handoffThrows_iff (w : Nat) (hw : w < 4294967296) :
    handoffThrows w = true ↔ w % 4 ≠ 0 ∨ w / 8 = 0 := by
  simp only [handoffThrows, mutexLocked_val, mutexWoken_val, lor_1_2, and_3, Bool.or_eq_true,
    bne_iff_ne, ne_eq, beq_iff_eq, waiters_eq_zero_iff w hw]

theorem handoffDelta_val (w : Nat) (st : Bool) (hw : w < 4294967296) :
    handoffDelta w st = if st = true ∧ w / 8 ≠ 1 then 4294967289 else 4294967285 := by
  have e1 : sub32 mutexLocked (1 <<< mutexWaiterShift) = 4294967289 := by decide
  have e2 : sub32 4294967289 mutexStarving = 4294967285 := by decide
  simp only [handoffDelta, e1, e2, Bool.or_eq_true, Bool.not_eq_true', beq_iff_eq,
    waiters_eq_one_iff w hw]
  cases st <;> simp

theorem unlockNoWake_iff (w : Nat) (hw : w < 4294967296) :
    unlockNoWake w = true ↔ w / 8 = 0 ∨ w % 8 ≠ 0 := by
  simp only [unlockNoWake, mutexLocked_val, mutexWoken_val, mutexStarving_val, lor_1_2_4,
    and_7, Bool.or_eq_true, bne_iff_ne, ne_eq, beq_iff_eq, waiters_eq_zero_iff w hw]

theorem unlockWakeNew_val (w : Nat) (hw : w < 4294967296) (h8 : w / 8 ≠ 0) (h0 : w % 8 = 0) :
    unlockWakeNew w = w - 8 + 2 := by
  have h1 := sub32_cases w 8 hw (by norm_num)
  have e : sub32 w 8 = w - 8 := by omega
  simp only [unlockWakeNew, mutexWaiterShift_val, shl_1_3, mutexWoken_val, e, or_2]
  omega

theorem run_step (env : Env) (fuel : Nat) (m m1 : Mutex) (g g1 : G)
    (h : step env m g = some (m1, g1)) : run env (fuel + 1) m g = run env fuel m1 g1 := by
  simp only [run, h]

theorem run_stop (env : Env) (fuel : Nat) (m : Mutex) (g : G)
    (h : step env m g = none) : run env fuel m g = (m, g) := by
  cases fuel
  · rfl
  · simp only [run, h]

end GoSync

namespace GoSync

theorem step_loopTop_throw (env : Env) (m : Mutex) (g : G) (hpc : g.pc = .loopTop)
    (hspin : (spinEligible g.old && env.canSpin g.iter) = false)
    (ht : lockSlowThrows g.old g.starving g.awoke = true) :
    step env m g = some (m, { g with pc := .fatal "sync: inconsistent mutex state" }) := by
  simp only [step, hpc, hspin, ht, Bool.false_eq_true, if_false, if_true]

theorem step_loopTop_cas (env : Env) (m : Mutex) (g : G) (hpc : g.pc = .loopTop)
    (hspin : (spinEligible g.old && env.canSpin g.iter) = false)
    (ht : lockSlowThrows g.old g.starving g.awoke = false) (hcas : m.state = g.old) :
    step env m g = some ({ m with state := lockSlowNew g.old g.starving g.awoke },
      if g.old &&& (mutexLocked ||| mutexStarving) = 0 then { g with pc := .owner }
      else { g with pc := .semacquire, queueLifo := g.waitStartTime != 0,
                    waitStartTime := if g.waitStartTime == 0 then env.now
                                     else g.waitStartTime }) := by
  simp only [step, hpc, hspin, ht, hcas, Bool.false_eq_true, if_false, if_true, beq_iff_eq]
  split_ifs <;> rfl

theorem step_postWake (env : Env) (m : Mutex) (g : G) (hpc : g.pc = .postWake)
    (hS : m.state &&& mutexStarving ≠ 0) :
    step env m g = some (m,
      if handoffThrows m.state = true then
        { g with pc := .fatal "sync: inconsistent mutex state",
                 starving := g.starving ||
                   decide (int64 (env.now - g.waitStartTime) > starvationThresholdNs),
                 old := m.state }
      else
        { g with pc := .handoffAdd,
                 starving := g.starving ||
                   decide (int64 (env.now - g.waitStartTime) > starvationThresholdNs),
                 old := m.state,
                 delta := handoffDelta m.state (g.starving ||
                   decide (int64 (env.now - g.waitStartTime) > starvationThresholdNs)) }) := by
  have h : (m.state &&& mutexStarving != 0) = true := by simpa using hS
  simp only [step, hpc, h, if_true]
  split_ifs <;> rfl

theorem step_handoffAdd (env : Env) (m : Mutex) (g : G) (hpc : g.pc = .handoffAdd) :
    step env m g = some ({ m with state := add32 m.state g.delta }, { g with pc := .owner }) := by
  simp only [step, hpc]

theorem step_owner_pc (env : Env) (m : Mutex) (g : G) (hpc : g.pc = .owner) :
    step env m g = none := by
  simp only [step, hpc]

theorem step_idle_pc (env : Env) (m : Mutex) (g : G) (hpc : g.pc = .idle) :
    step env m g = none := by
  simp only [step, hpc]

theorem step_unlockEntry_val (env : Env) (s sema : Nat) (g : G) (hs : s < 4294967296)
    (hpc : g.pc = .unlockEntry) (hbit : s % 2 = 1) :
    step env ⟨s, sema⟩ g = some (⟨s - 1, sema⟩,
      if s - 1 = 0 then { g with pc := .idle }
      else if (s - 1) / 4 % 2 = 0 then { g with pc := .unlockLoop, old := s - 1 }
      else { g with pc := .releaseHandoff }) := by
  have h1 := sub32_cases s 1 hs (by norm_num)
  have e : sub32 s mutexLocked = s - 1 := by simp only [mutexLocked_val]; omega
  have ht : unlockThrows (s - 1) = false := by
    have := (unlockThrows_sub s hs).not.2 (by omega)
    rw [e] at this
    simpa using this
  have h4 : (s - 1) &&& mutexStarving = 0 ↔ (s - 1) / 4 % 2 = 0 := by
    rw [mutexStarving_val, and_4]; omega
  simp only [step, hpc, e, ht, Bool.false_eq_true, if_false, bne_iff_ne, ne_eq, beq_iff_eq,
    ite_not, h4]
  split_ifs <;> rfl

theorem step_unlockLoop (env : Env) (m : Mutex) (g : G) (hpc : g.pc = .unlockLoop)
    (hcas : m.state = g.old) :
    step env m g = some (
      if unlockNoWake g.old = true then (m, { g with pc := .idle })
      else ({ m with state := unlockWakeNew g.old }, { g with pc := .releaseNormal })) := by
  simp only [step, hpc, hcas, if_true]
  split_ifs <;> rfl

theorem step_releaseNormal (env : Env) (m : Mutex) (g : G) (hpc : g.pc = .releaseNormal) :
    step env m g = some ({ m with sema := semrelease m.sema },
      { g with pc := .idle, calls := g.calls ++ [.semrelease false] }) := by
  simp only [step, hpc]

theorem step_releaseHandoff (env : Env) (m : Mutex) (g : G) (hpc : g.pc = .releaseHandoff) :
    step env m g = some ({ m with sema := semrelease m.sema },
      { g with pc := .idle, calls := g.calls ++ [.semrelease true] }) := by
  simp only [step, hpc]

end GoSync

namespace GoSync

/-! ## Claims on the queue phase, the hand-off and `Unlock` -/

theorem bit_locked (w : Nat) : w &&& mutexLocked = w % 2 := by
  rw [mutexLocked_val, and_1]

theorem bit_woken (w : Nat) : w &&& mutexWoken = 2 * (w / 2 % 2) := by
  rw [mutexWoken_val, and_2]

theorem bit_starving (w : Nat) : w &&& mutexStarving = 4 * (w / 4 % 2) := by
  rw [mutexStarving_val, and_4]

theorem bit_locked_starving (w : Nat) :
    w &&& (mutexLocked ||| mutexStarving) = w % 2 + 4 * (w / 4 % 2) := by
  rw [mutexLocked_val, mutexStarving_val, lor_1_4, and_5]

/-- C16, as the code has it: once the spin is not taken, the state `new` that
`lockSlow` proposes has the locked bit set iff `old` is locked or not starving, the
starving bit set iff `old` is starving or the goroutine is starving and `old` is
locked, the woken bit cleared when `awoke` holds and as in `old` otherwise, and the
waiter count of `old` plus one when `old` is locked or starving (unless that count
is `2^28 - 1`, where the addition overflows) and unchanged otherwise. With `awoke`
and the woken bit of `old` clear it throws instead. After the CAS the goroutine
returns as owner iff `old` was neither locked nor starving, and parks otherwise. -/
theorem lockSlow_queue_phase (env : Env) (sema : Nat) (g : G) (hold : g.old < 4294967296)
    (hpc : g.pc = .loopTop)
    (hspin : (spinEligible g.old && env.canSpin g.iter) = false) :
    (lockSlowNew g.old g.starving g.awoke &&& mutexLocked ≠ 0 ↔
      g.old &&& mutexLocked ≠ 0 ∨ g.old &&& mutexStarving = 0) ∧
    (g.old &&& (mutexLocked ||| mutexStarving) ≠ 0 → waiters g.old ≠ 268435455 →
      waiters (lockSlowNew g.old g.starving g.awoke) = waiters g.old + 1) ∧
    (g.old &&& (mutexLocked ||| mutexStarving) = 0 →
      waiters (lockSlowNew g.old g.starving g.awoke) = waiters g.old) ∧
    (lockSlowNew g.old g.starving g.awoke &&& mutexStarving ≠ 0 ↔
      g.old &&& mutexStarving ≠ 0 ∨ (g.starving = true ∧ g.old &&& mutexLocked ≠ 0)) ∧
    (g.awoke = true → lockSlowNew g.old g.starving g.awoke &&& mutexWoken = 0) ∧
    (g.awoke = false →
      lockSlowNew g.old g.starving g.awoke &&& mutexWoken = g.old &&& mutexWoken) ∧
    (g.awoke = true → g.old &&& mutexWoken = 0 →
      step env ⟨g.old, sema⟩ g
        = some (⟨g.old, sema⟩, { g with pc := .fatal "sync: inconsistent mutex state" })) ∧
    (¬ (g.awoke = true ∧ g.old &&& mutexWoken = 0) →
      ∃ g1, step env ⟨g.old, sema⟩ g
          = some (⟨lockSlowNew g.old g.starving g.awoke, sema⟩, g1) ∧
        (g1.pc = .owner ↔ g.old &&& (mutexLocked ||| mutexStarving) = 0) ∧
        (g1.pc = .owner ∨ g1.pc = .semacquire) ∧ g1.calls = g.calls) := by
  obtain ⟨f1, f2, f3, f4, f5⟩ := lockSlowNew_fields g.old g.starving g.awoke hold
  have hthr := lockSlowThrows_iff g.old g.starving g.awoke hold
  refine ⟨?_, ?_, ?_, ?_, ?_, ?_, ?_, ?_⟩
  · simp only [bit_locked, bit_starving]
    split_ifs at f2 <;> omega
  · simp only [bit_locked_starving, waiters_signed]
    intro h1 h2
    split_ifs at f5 h2 ⊢ <;> omega
  · simp only [bit_locked_starving, waiters_signed]
    intro h1
    split_ifs at f5 ⊢ <;> omega
  · simp only [bit_locked, bit_starving]
    cases hst : g.starving
    · rw [hst] at f4
      simp only [Bool.false_eq_true, false_and, if_false, or_false] at f4 ⊢
      omega
    · rw [hst] at f4
      simp only [true_and] at f4 ⊢
      split_ifs at f4 <;> omega
  · intro haw
    rw [if_pos haw] at f3
    rw [bit_woken]; omega
  · intro haw
    rw [if_neg (by simp [haw])] at f3
    rw [bit_woken, bit_woken]; omega
  · intro haw hk
    rw [bit_woken] at hk
    exact step_loopTop_throw env _ g hpc hspin (hthr.2 ⟨haw, by omega⟩)
  · intro hn
    have ht : lockSlowThrows g.old g.starving g.awoke = false := by
      cases h : lockSlowThrows g.old g.starving g.awoke
      · rfl
      · exfalso
        apply hn
        have := hthr.1 h
        exact ⟨this.1, by rw [bit_woken]; omega⟩
    have hstep := step_loopTop_cas env ⟨g.old, sema⟩ g hpc hspin ht rfl
    by_cases hz : g.old &&& (mutexLocked ||| mutexStarving) = 0
    · rw [if_pos hz] at hstep
      exact ⟨_, hstep, ⟨fun _ => hz, fun _ => rfl⟩, Or.inl rfl, rfl⟩
    · rw [if_neg hz] at hstep
      exact ⟨_, hstep, ⟨fun h => by simp at h, fun h => absurd h hz⟩, Or.inr rfl, rfl⟩

theorem lockSlow_queue_phase_witness :
    ((9 : Nat) < 4294967296 ∧ ({ G.init with pc := .loopTop, old := 9 } : G).pc = .loopTop ∧
      (spinEligible 9 && (⟨fun _ => false, 0⟩ : Env).canSpin 0) = false) ∧
    (lockSlowNew 9 false false &&& mutexLocked ≠ 0 ↔
      9 &&& mutexLocked ≠ 0 ∨ 9 &&& mutexStarving = 0) :=
  ⟨⟨by norm_num, rfl, by simp⟩,
   (lockSlow_queue_phase ⟨fun _ => false, 0⟩ 0 { G.init with pc := .loopTop, old := 9 }
      (by norm_num) rfl (by simp)).1⟩

/-- C16 as stated fails: for `old = 0x7FFFFFF9` (locked, waiter count `2^28 - 1`) the
addition of `1 << mutexWaiterShift` overflows and the waiter count of `new` is
`-2^28`, not the count of `old` plus one. -/
theorem lockSlow_queue_phase_overflow :
    (2147483641 &&& mutexLocked ≠ 0) ∧ waiters 2147483641 = 268435455 ∧
    lockSlowNew 2147483641 false false = 2147483649 ∧
    waiters (lockSlowNew 2147483641 false false) = -268435456 ∧
    waiters (lockSlowNew 2147483641 false false) ≠ waiters 2147483641 + 1 := by
  decide

/-- C5, as the code has it: with the starving bit set in `old`, whatever the locked
bit and `runtime_canSpin`, `lockSlow` does not spin and proposes a state with the
locked and starving bits of `old` and the waiter count of `old` plus one (unless
that count is `2^28 - 1`, where the addition overflows); unless the check on the
woken bit throws, the goroutine then parks on the semaphore after the CAS and does
not return as owner. -/
theorem starving_arrival_queues (env : Env) (sema : Nat) (g : G) (hold : g.old < 4294967296)
    (hS : g.old &&& mutexStarving ≠ 0) (hpc : g.pc = .loopTop) :
    (spinEligible g.old && env.canSpin g.iter) = false ∧
    lockSlowNew g.old g.starving g.awoke &&& mutexLocked = g.old &&& mutexLocked ∧
    lockSlowNew g.old g.starving g.awoke &&& mutexStarving = g.old &&& mutexStarving ∧
    (waiters g.old ≠ 268435455 →
      waiters (lockSlowNew g.old g.starving g.awoke) = waiters g.old + 1) ∧
    (lockSlowThrows g.old g.starving g.awoke = false →
      ∃ g1, step env ⟨g.old, sema⟩ g
          = some (⟨lockSlowNew g.old g.starving g.awoke, sema⟩, g1) ∧
        g1.pc = .semacquire ∧ g1.calls = g.calls) := by
  obtain ⟨f1, f2, f3, f4, f5⟩ := lockSlowNew_fields g.old g.starving g.awoke hold
  rw [bit_starving] at hS
  have hS1 : g.old / 4 % 2 = 1 := by omega
  have hspin : (spinEligible g.old && env.canSpin g.iter) = false := by
    have : spinEligible g.old = false := by
      cases h : spinEligible g.old
      · rfl
      · have := (spinEligible_iff g.old).1 h
        omega
    simp [this]
  refine ⟨hspin, ?_, ?_, ?_, ?_⟩
  · rw [bit_locked, bit_locked, f2, if_neg (by omega)]
  · rw [bit_starving, bit_starving, f4]
    split_ifs <;> omega
  · simp only [waiters_signed]
    rw [f5, if_pos (Or.inr hS1)]
    intro h2
    split_ifs at h2 ⊢ <;> omega
  · intro ht
    have hstep := step_loopTop_cas env ⟨g.old, sema⟩ g hpc hspin ht rfl
    have hz : ¬ g.old &&& (mutexLocked ||| mutexStarving) = 0 := by
      rw [bit_locked_starving]; omega
    rw [if_neg hz] at hstep
    exact ⟨_, hstep, rfl, rfl⟩

theorem starving_arrival_queues_witness :
    ((12 : Nat) < 4294967296 ∧ 12 &&& mutexStarving ≠ 0 ∧
      ({ G.init with pc := .loopTop, old := 12 } : G).pc = .loopTop) ∧
    (spinEligible 12 && (⟨fun _ => true, 0⟩ : Env).canSpin 0) = false :=
  ⟨⟨by norm_num, by decide, rfl⟩,
   (starving_arrival_queues ⟨fun _ => true, 0⟩ 0 { G.init with pc := .loopTop, old := 12 }
      (by norm_num) (by decide) rfl).1⟩

/-- C5 as stated fails: for `old = 0x7FFFFFFC` (starving, waiter count `2^28 - 1`)
the new state is `0x80000004`, whose waiter count is `-2^28`. -/
theorem starving_arrival_overflow :
    (2147483644 &&& mutexStarving ≠ 0) ∧ waiters 2147483644 = 268435455 ∧
    lockSlowNew 2147483644 false false = 2147483652 ∧
    waiters (lockSlowNew 2147483644 false false) = -268435456 ∧
    waiters (lockSlowNew 2147483644 false false) ≠ waiters 2147483644 + 1 := by
  decide

end GoSync

namespace GoSync

/-- C17: a goroutine that resumes from the semaphore and reads a state `old` with the
starving bit set throws "sync: inconsistent mutex state" iff `old` has the locked or
the woken bit set or a waiter count of 0. Otherwise, with a waiter count `w >= 1`,
it adds `delta` and returns as owner; the new state is `old - 7` or `old - 11` with
no wrap-around: locked bit set, woken bit clear, waiter count `w - 1`, and the
starving bit set iff the goroutine is starving and `w >= 2`. The goroutine is starving
when its flag was set before or the `int64` difference of `runtime_nanotime()` and
`waitStartTime`, taken with wrap-around, is above `starvationThresholdNs`. -/
theorem handoff_fixup (env : Env) (old sema fuel : Nat) (g : G) (st : Bool)
    (hold : old < 4294967296) (hS : old &&& mutexStarving ≠ 0) (hpc : g.pc = .postWake)
    (hst : st = (g.starving ||
      decide (int64 (env.now - g.waitStartTime) > starvationThresholdNs))) :
    (∃ g1, step env ⟨old, sema⟩ g = some (⟨old, sema⟩, g1) ∧
      (g1.pc = .fatal "sync: inconsistent mutex state" ↔
        old &&& mutexLocked ≠ 0 ∨ old &&& mutexWoken ≠ 0 ∨ waiters old = 0) ∧
      (g1.pc = .fatal "sync: inconsistent mutex state" ∨ g1.pc = .handoffAdd)) ∧
    (old &&& mutexLocked = 0 → old &&& mutexWoken = 0 → 1 ≤ waiters old →
      (∃ g2, run env (fuel + 2) ⟨old, sema⟩ g
          = (⟨add32 old (handoffDelta old st), sema⟩, g2) ∧
        g2.pc = .owner ∧ g2.calls = g.calls) ∧
      add32 old (handoffDelta old st) &&& mutexLocked ≠ 0 ∧
      add32 old (handoffDelta old st) &&& mutexWoken = 0 ∧
      waiters (add32 old (handoffDelta old st)) = waiters old - 1 ∧
      (add32 old (handoffDelta old st) &&& mutexStarving ≠ 0 ↔
        st = true ∧ 2 ≤ waiters old) ∧
      add32 old (handoffDelta old st) + 7
        + (if st = true ∧ 2 ≤ waiters old then 0 else 4) = old) := by
  have hstep := step_postWake env ⟨old, sema⟩ g hpc hS
  have hthr := handoffThrows_iff old hold
  rw [← hst] at hstep
  simp only [bit_starving] at hS
  constructor
  · by_cases ht : handoffThrows old = true
    · rw [if_pos ht] at hstep
      refine ⟨_, hstep, ⟨fun _ => ?_, fun _ => rfl⟩, Or.inl rfl⟩
      have := hthr.1 ht
      simp only [bit_locked, bit_woken, waiters_eq_zero_iff old hold]
      omega
    · rw [if_neg ht] at hstep
      refine ⟨_, hstep, ⟨fun h => by simp at h, fun h => ?_⟩, Or.inr rfl⟩
      exfalso
      apply ht
      apply hthr.2
      simp only [bit_locked, bit_woken, waiters_eq_zero_iff old hold] at h
      omega
  · intro h1 h2 h3
    simp only [bit_locked, bit_woken] at h1 h2
    have hw := waiters_signed old
    have hw8 : 1 ≤ old / 8 ∧ old / 8 < 268435456 := by
      split_ifs at hw <;> omega
    have ht : ¬ handoffThrows old = true := by
      intro h
      have := hthr.1 h
      omega
    rw [if_neg ht] at hstep
    have hd := handoffDelta_val old st hold
    have ha := add32_cases old (handoffDelta old st) hold
      (by rw [hd]; split_ifs <;> norm_num)
    have hw3 : waiters old = ((old / 8 : Nat) : Int) := by
      rw [hw, if_pos hw8.2]
    have hN : add32 old (handoffDelta old st) + 7
        + (if st = true ∧ 2 ≤ waiters old then 0 else 4) = old := by
      rw [hw3]
      by_cases hc : st = true ∧ old / 8 ≠ 1
      · have hd2 : handoffDelta old st = 4294967289 := by rw [hd, if_pos hc]
        rw [if_pos ⟨hc.1, by omega⟩]
        omega
      · have hd2 : handoffDelta old st = 4294967285 := by rw [hd, if_neg hc]
        rw [if_neg (by intro h; apply hc; exact ⟨h.1, by omega⟩)]
        omega
    refine ⟨?_, ?_, ?_, ?_, ?_, hN⟩
    · have hrun := (run_step env (fuel + 1) _ _ _ _ hstep).trans
        ((run_step env fuel _ _ _ _ (step_handoffAdd env _ _ rfl)).trans
          (run_stop env fuel _ _ (step_owner_pc env _ _ rfl)))
      exact ⟨_, hrun, rfl, rfl⟩
    · rw [bit_locked]; split_ifs at hN <;> omega
    · rw [bit_woken]; split_ifs at hN <;> omega
    · rw [waiters_signed, hw3]
      split_ifs at hN ⊢ <;> omega
    · rw [bit_starving, hw3]
      by_cases hc : st = true ∧ 2 ≤ ((old / 8 : Nat) : Int)
      · rw [hw3, if_pos hc] at hN
        exact ⟨fun _ => hc, fun _ => by omega⟩
      · rw [hw3, if_neg hc] at hN
        exact ⟨fun h => absurd h (by omega), fun h => absurd h hc⟩

theorem handoff_fixup_witness :
    ((20 : Nat) < 4294967296 ∧ 20 &&& mutexStarving ≠ 0 ∧
      ({ G.init with pc := .postWake, waitStartTime := -9223372036854775808 } : G).pc
        = .postWake ∧
      false = ((({ G.init with pc := .postWake,
                               waitStartTime := -9223372036854775808 } : G).starving ||
        decide (int64 ((⟨fun _ => false, 1⟩ : Env).now
          - ({ G.init with pc := .postWake,
                           waitStartTime := -9223372036854775808 } : G).waitStartTime)
            > starvationThresholdNs))) ∧
      20 &&& mutexLocked = 0 ∧ 20 &&& mutexWoken = 0 ∧ 1 ≤ waiters 20) ∧
    add32 20 (handoffDelta 20 false) = 9 ∧
    ∃ g2, run ⟨fun _ => false, 1⟩ 2 ⟨20, 0⟩
        { G.init with pc := .postWake, waitStartTime := -9223372036854775808 }
        = (⟨add32 20 (handoffDelta 20 false), 0⟩, g2) ∧
      g2.pc = .owner ∧
      g2.calls = ({ G.init with pc := .postWake,
                                waitStartTime := -9223372036854775808 } : G).calls :=
  ⟨⟨by norm_num, by decide, rfl, by decide, by decide, by decide, by decide⟩, by decide,
   ((handoff_fixup ⟨fun _ => false, 1⟩ 20 0 0
      { G.init with pc := .postWake, waitStartTime := -9223372036854775808 } false
      (by norm_num) (by decide) rfl (by decide)).2 (by decide) (by decide) (by decide)).1⟩

/-- C18: for a state `s` with the locked bit set and the starving bit clear, run
alone, `Unlock` stores `n = s - mutexLocked`. If `n` has a waiter count of 0 or the
woken bit set, the state stays `n` and nobody is released. Otherwise `Unlock` leaves
the state `(n - 1<<mutexWaiterShift) | mutexWoken`, with one waiter less, the woken
bit set and the locked and starving bits clear, and calls `runtime_Semrelease` once,
with `handoff = false`. -/
theorem unlock_normal_mode (env : Env) (s sema fuel : Nat) (g : G) (hs : s < 4294967296)
    (hL : s &&& mutexLocked ≠ 0) (hS : s &&& mutexStarving = 0)
    (hpc : g.pc = .unlockEntry) :
    sub32 s mutexLocked = s - 1 ∧
    (waiters (s - 1) = 0 ∨ (s - 1) &&& mutexWoken ≠ 0 →
      ∃ g1, run env (fuel + 2) ⟨s, sema⟩ g = (⟨s - 1, sema⟩, g1) ∧
        g1.pc = .idle ∧ g1.calls = g.calls) ∧
    (waiters (s - 1) ≠ 0 → (s - 1) &&& mutexWoken = 0 →
      (∃ g1, run env (fuel + 3) ⟨s, sema⟩ g
          = (⟨sub32 (s - 1) (1 <<< mutexWaiterShift) ||| mutexWoken, semrelease sema⟩, g1) ∧
        g1.pc = .idle ∧ g1.calls = g.calls ++ [.semrelease false]) ∧
      (sub32 (s - 1) (1 <<< mutexWaiterShift) ||| mutexWoken) &&& mutexWoken ≠ 0 ∧
      (sub32 (s - 1) (1 <<< mutexWaiterShift) ||| mutexWoken) &&& mutexLocked = 0 ∧
      (sub32 (s - 1) (1 <<< mutexWaiterShift) ||| mutexWoken) &&& mutexStarving = 0 ∧
      (sub32 (s - 1) (1 <<< mutexWaiterShift) ||| mutexWoken) / 8 + 1 = (s - 1) / 8 ∧
      (1 ≤ waiters (s - 1) →
        waiters (sub32 (s - 1) (1 <<< mutexWaiterShift) ||| mutexWoken)
          = waiters (s - 1) - 1)) := by
  simp only [bit_locked, bit_starving] at hL hS
  have hbit : s % 2 = 1 := by omega
  have h1 := sub32_cases s 1 hs (by norm_num)
  have e : sub32 s mutexLocked = s - 1 := by simp only [mutexLocked_val]; omega
  have hstep := step_unlockEntry_val env s sema g hs hpc hbit
  have hlt : s - 1 < 4294967296 := by omega
  have hnw := unlockNoWake_iff (s - 1) hlt
  have hw0 := waiters_eq_zero_iff (s - 1) hlt
  refine ⟨e, ?_, ?_⟩
  · intro hA
    by_cases h0 : s - 1 = 0
    · rw [if_pos h0] at hstep
      have hrun := (run_step env (fuel + 1) _ _ _ _ hstep).trans
        (run_stop env (fuel + 1) _ _ (step_idle_pc env _ _ rfl))
      exact ⟨_, hrun, rfl, rfl⟩
    · rw [if_neg h0, if_pos (by omega)] at hstep
      have hno : unlockNoWake (s - 1) = true := by
        apply hnw.2
        rw [hw0, bit_woken] at hA
        omega
      have h2 := step_unlockLoop env ⟨s - 1, sema⟩ { g with pc := .unlockLoop, old := s - 1 }
        rfl rfl
      simp only [hno, if_true] at h2
      have hrun := (run_step env (fuel + 1) _ _ _ _ hstep).trans
        ((run_step env fuel _ _ _ _ h2).trans
          (run_stop env fuel _ _ (step_idle_pc env _ _ rfl)))
      exact ⟨_, hrun, rfl, rfl⟩
  · intro hB0 hB2
    have hB1 : ¬ (s - 1) / 8 = 0 := fun h => hB0 (hw0.2 h)
    rw [bit_woken] at hB2
    have h0 : ¬ s - 1 = 0 := by omega
    rw [if_neg h0, if_pos (by omega)] at hstep
    have hno : ¬ unlockNoWake (s - 1) = true := by
      intro h
      have := hnw.1 h
      omega
    have h2 := step_unlockLoop env ⟨s - 1, sema⟩ { g with pc := .unlockLoop, old := s - 1 }
      rfl rfl
    simp only [hno, if_false] at h2
    have hv := unlockWakeNew_val (s - 1) hlt hB1 (by omega)
    have hv2 : sub32 (s - 1) (1 <<< mutexWaiterShift) ||| mutexWoken = s - 1 - 8 + 2 := hv
    rw [hv2]
    refine ⟨?_, ?_, ?_, ?_, ?_, ?_⟩
    · have hrun := (run_step env (fuel + 2) _ _ _ _ hstep).trans
        ((run_step env (fuel + 1) _ _ _ _ h2).trans
          ((run_step env fuel _ _ _ _ (step_releaseNormal env _ _ rfl)).trans
            (run_stop env fuel _ _ (step_idle_pc env _ _ rfl))))
      rw [hv] at hrun
      exact ⟨_, hrun, rfl, rfl⟩
    · rw [bit_woken]; omega
    · rw [bit_locked]; omega
    · rw [bit_starving]; omega
    · omega
    · rw [waiters_signed, waiters_signed]
      intro h
      split_ifs at h ⊢ <;> omega

theorem unlock_normal_mode_witness :
    ((9 : Nat) < 4294967296 ∧ 9 &&& mutexLocked ≠ 0 ∧ 9 &&& mutexStarving = 0 ∧
      ({ G.init with pc := .unlockEntry } : G).pc = .unlockEntry) ∧
    sub32 9 mutexLocked = 9 - 1 :=
  ⟨⟨by norm_num, by decide, by decide, rfl⟩,
   (unlock_normal_mode ⟨fun _ => false, 0⟩ 9 0 0 { G.init with pc := .unlockEntry }
      (by norm_num) (by decide) (by decide) rfl).1⟩

/-- C19: for a state `s` with the locked and the starving bit set, `Unlock` stores
`s` with only the locked bit cleared (waiter count, starving and woken bit as
before), goes straight to `runtime_Semrelease` with `handoff = true`, calls it once
and returns: it makes no CAS. -/
theorem unlock_starving_mode (env : Env) (s sema fuel : Nat) (g : G) (hs : s < 4294967296)
    (hL : s &&& mutexLocked ≠ 0) (hS : s &&& mutexStarving ≠ 0)
    (hpc : g.pc = .unlockEntry) :
    step env ⟨s, sema⟩ g = some (⟨s - 1, sema⟩, { g with pc := .releaseHandoff }) ∧
    run env (fuel + 2) ⟨s, sema⟩ g
      = (⟨s - 1, semrelease sema⟩,
         { g with pc := .idle, calls := g.calls ++ [.semrelease true] }) ∧
    s - 1 = sub32 s mutexLocked ∧
    (s - 1) &&& mutexLocked = 0 ∧
    (s - 1) &&& mutexStarving = s &&& mutexStarving ∧
    (s - 1) &&& mutexWoken = s &&& mutexWoken ∧
    waiters (s - 1) = waiters s := by
  simp only [bit_locked, bit_starving] at hL hS
  have hbit : s % 2 = 1 := by omega
  have h1 := sub32_cases s 1 hs (by norm_num)
  have e : sub32 s mutexLocked = s - 1 := by simp only [mutexLocked_val]; omega
  have hstep := step_unlockEntry_val env s sema g hs hpc hbit
  rw [if_neg (by omega), if_neg (by omega)] at hstep
  refine ⟨hstep, ?_, e.symm, ?_, ?_, ?_, ?_⟩
  · exact (run_step env (fuel + 1) _ _ _ _ hstep).trans
      ((run_step env fuel _ _ _ _ (step_releaseHandoff env _ _ rfl)).trans
        (run_stop env fuel _ _ (step_idle_pc env _ _ rfl)))
  · rw [bit_locked]; omega
  · rw [bit_starving, bit_starving]; omega
  · rw [bit_woken, bit_woken]; omega
  · rw [waiters_signed, waiters_signed]
    split_ifs <;> omega

theorem unlock_starving_mode_witness :
    ((13 : Nat) < 4294967296 ∧ 13 &&& mutexLocked ≠ 0 ∧ 13 &&& mutexStarving ≠ 0 ∧
      ({ G.init with pc := .unlockEntry } : G).pc = .unlockEntry) ∧
    step ⟨fun _ => false, 0⟩ ⟨13, 0⟩ { G.init with pc := .unlockEntry }
      = some (⟨13 - 1, 0⟩, { { G.init with pc := .unlockEntry } with pc := .releaseHandoff }) :=
  ⟨⟨by norm_num, by decide, by decide, rfl⟩,
   (unlock_starving_mode ⟨fun _ => false, 0⟩ 13 0 0 { G.init with pc := .unlockEntry }
      (by norm_num) (by decide) (by decide) rfl).1⟩

end GoSync


namespace GoSync

/-! ## The invariant is kept by every move -/

theorem countP_le_length_of_not (p : G → Bool) (l : List G) (i : Nat) (g : G)
    (h : l[i]? = some g) (hp : p g = false) : l.countP p + 1 ≤ l.length := by
  induction l generalizing i with
  | nil => simp at h
  | cons a t ih =>
    cases i with
    | zero =>
      simp only [List.getElem?_cons_zero, Option.some.injEq] at h
      subst h
      simp only [List.countP_cons, hp, List.length_cons]
      have := List.countP_le_length p (l := t)
      simp; omega
    | succ j =>
      simp only [List.getElem?_cons_succ] at h
      have := ih j h
      simp only [List.countP_cons, List.length_cons]
      split_ifs <;> omega

end GoSync

namespace GoSync

end GoSync

namespace GoSync

set_option linter.unusedVariables false

end GoSync

namespace GoSync

/-! ## Moves that leave the word, the semaphore and the counts alone -/

end GoSync

namespace GoSync

/-! ## The fields of the words that the moves store -/

end GoSync

namespace GoSync

/-! ## Every step of a goroutine keeps the invariant or ends in a throw -/

end GoSync

namespace GoSync

end GoSync

namespace GoSync

/-! ## Schedules -/

end GoSync

namespace GoSync

end GoSync
